import Mathlib

/-!
Verification of the makita input-remapping engine.

Shallow embedding of the event resolution core
(src/input_event_handling/event_reader.rs) and of the binding-table
construction (src/config.rs).  Rust HashMaps are modelled as association
lists with first-match lookup; evdev key codes are Nat; i32 values are
Int.  The external evdev name space (Key::from_str of the evdev crate) is
modelled as an abstract resolver parameter.
-/

namespace Makita

/-- Axis enumeration, mirroring enum Axis in src/config.rs. -/
inductive Axis where
  | BTN_DPAD_UP
  | BTN_DPAD_DOWN
  | BTN_DPAD_LEFT
  | BTN_DPAD_RIGHT
  | LSTICK_UP
  | LSTICK_DOWN
  | LSTICK_LEFT
  | LSTICK_RIGHT
  | RSTICK_UP
  | RSTICK_DOWN
  | RSTICK_LEFT
  | RSTICK_RIGHT
  | SCROLL_WHEEL_UP
  | SCROLL_WHEEL_DOWN
  | BTN_TL2
  | BTN_TR2
  | ABS_WHEEL_CW
  | ABS_WHEEL_CCW
  deriving DecidableEq, Repr

/-- Variant index of an Axis, used to mirror the derived Ord of the Rust enum. -/
def Axis.idx : Axis → Nat
  | .BTN_DPAD_UP => 0
  | .BTN_DPAD_DOWN => 1
  | .BTN_DPAD_LEFT => 2
  | .BTN_DPAD_RIGHT => 3
  | .LSTICK_UP => 4
  | .LSTICK_DOWN => 5
  | .LSTICK_LEFT => 6
  | .LSTICK_RIGHT => 7
  | .RSTICK_UP => 8
  | .RSTICK_DOWN => 9
  | .RSTICK_LEFT => 10
  | .RSTICK_RIGHT => 11
  | .SCROLL_WHEEL_UP => 12
  | .SCROLL_WHEEL_DOWN => 13
  | .BTN_TL2 => 14
  | .BTN_TR2 => 15
  | .ABS_WHEEL_CW => 16
  | .ABS_WHEEL_CCW => 17

/-- enum Event of src/config.rs: Axis(Axis) | Key(Key) | Hold.
Key carries the evdev u16 code. Constructor order matches the Rust
declaration order, which the derived Ord uses. -/
inductive Event where
  | axis (a : Axis)
  | key (k : Nat)
  | hold
  deriving DecidableEq, Repr

/-- Injective encoding of Event realising the derived Rust Ord
lexicographically: all Axis values sort before all Key values, which
sort before Hold; axes by variant index, keys by code. -/
def Event.ecode : Event → Lex (Nat × Nat)
  | .axis a => toLex (0, a.idx)
  | .key k => toLex (1, k)
  | .hold => toLex (2, 0)

theorem Axis.idx_injective : Function.Injective Axis.idx := by
  intro a b h
  cases a <;> cases b <;> first | rfl | simp [Axis.idx] at h

theorem Event.ecode_injective : Function.Injective Event.ecode := by
  intro x y h
  cases x <;> cases y <;>
    simp only [Event.ecode, toLex_inj, Prod.mk.injEq] at h <;>
    first
      | rfl
      | omega
      | exact congrArg Event.axis (Axis.idx_injective h.2)
      | exact congrArg Event.key h.2

/-- Total order on Event mirroring the derived Rust Ord. -/
instance : LinearOrder Event := LinearOrder.lift' Event.ecode Event.ecode_injective

/-- A chord: ordered sequence of Event values (Vec of Event in Rust). -/
abbrev Chord := List Event

/-- First-match association-list lookup, modelling HashMap::get. -/
def alookup {α β : Type} [DecidableEq α] : List (α × β) → α → Option β
  | [], _ => none
  | (a, b) :: rest, x => if x = a then some b else alookup rest x

/-- Vec::dedup: remove consecutive duplicate elements, keeping the first
of each run. -/
def dedupAdj {α : Type} [DecidableEq α] : List α → List α
  | [] => []
  | [a] => [a]
  | a :: b :: rest => if a = b then dedupAdj (b :: rest) else a :: dedupAdj (b :: rest)

/-- Vec::sort followed by Vec::dedup, as performed in toggle_modifiers. -/
def rustSortDedup (l : Chord) : Chord :=
  dedupAdj (l.insertionSort (· ≤ ·))

/-- enum Relative of src/config.rs (Cursor and Scroll merged with tags). -/
inductive Cursor where
  | CURSOR_UP | CURSOR_DOWN | CURSOR_LEFT | CURSOR_RIGHT
  deriving DecidableEq, Repr

inductive Scroll where
  | SCROLL_UP | SCROLL_DOWN | SCROLL_LEFT | SCROLL_RIGHT
  deriving DecidableEq, Repr

inductive Relative where
  | cursor (c : Cursor)
  | scroll (s : Scroll)
  deriving DecidableEq, Repr

/-- struct Bindings of src/config.rs. HashMaps become association lists. -/
structure Bindings where
  remap : List (Event × List (Chord × List Nat))
  movements : List (Event × List (Chord × Relative))
  rubies : List (Event × List (Chord × String))
  deriving DecidableEq, Repr

/-- struct MappedModifiers of src/config.rs. -/
structure MappedModifiers where
  default : List Event
  custom : List Event
  all : List Event
  deriving DecidableEq, Repr

/-- The parts of struct Config that the event resolution core reads. -/
structure Config where
  bindings : Bindings
  mapped_modifiers : MappedModifiers
  deriving DecidableEq, Repr

/-- Channels of the virtual output device (VirtualDevices.keys / .axis). -/
inductive Chan where
  | keys
  | axis
  deriving DecidableEq, Repr

/-- One record written to the virtual device: channel, code, value. -/
structure Emission where
  chan : Chan
  code : Nat
  value : Int
  deriving DecidableEq, Repr

/-- evdev event types that the emitter distinguishes. -/
inductive EType where
  | KEY
  | RELATIVE
  | ABSOLUTE
  deriving DecidableEq, Repr

/-- The raw InputEvent handed to convert_event as default_event. -/
structure DefaultEvent where
  etype : EType
  code : Nat
  value : Int
  deriving DecidableEq, Repr

/-- The mutable runtime state that convert_event reads and writes:
the shared chord, the modifier_was_activated flag and the two
movement accumulators. -/
structure RState where
  modifiers : Chord
  modifier_was_activated : Bool
  cursor_movement : Int × Int
  scroll_movement : Int × Int
  deriving DecidableEq, Repr

/-- toggle_modifiers (event_reader.rs lines 611-624): guarded by
membership in mapped_modifiers.all; value 1 pushes then sorts then
dedups, value 0 retains everything different from the modifier,
any other value is a no-op. -/
def toggle_modifiers (config : Config) (modifier : Event) (value : Int)
    (modifiers : Chord) : Chord :=
  if config.mapped_modifiers.all.contains modifier then
    if value = 1 then rustSortDedup (modifiers ++ [modifier])
    else if value = 0 then modifiers.filter (fun x => x ≠ modifier)
    else modifiers
  else modifiers

/-- released_keys (event_reader.rs lines 626-634): every output key bound
anywhere in the remap table under the given chord. -/
def released_keys (config : Config) (modifiers : Chord) : List Nat :=
  config.bindings.remap.foldl
    (fun acc p =>
      match alookup p.2 modifiers with
      | some event_list => acc ++ event_list
      | none => acc)
    []

/-- State updates applied only to the chord component. -/
def RState.withMods (st : RState) (m : Chord) : RState :=
  { st with modifiers := m }

def RState.withFlag (st : RState) (b : Bool) : RState :=
  { st with modifier_was_activated := b }

/-- The released-keys loop of emit_event (lines 499-506): for each key
bound under the previous chord that is modifier-classified, toggle it
out of the chord and emit a value-0 key event. -/
def releaseLoopMapped (config : Config) : List Nat → RState → RState × List Emission
  | [], st => (st, [])
  | k :: rest, st =>
    if config.mapped_modifiers.all.contains (Event.key k) then
      let st := st.withMods (toggle_modifiers config (Event.key k) 0 st.modifiers)
      let (stf, out) := releaseLoopMapped config rest st
      (stf, ⟨Chan.keys, k, 0⟩ :: out)
    else releaseLoopMapped config rest st

/-- The released-keys loop of emit_nonmapped_event (lines 548-553):
toggle and emit unconditionally. -/
def releaseLoopNonmapped (config : Config) : List Nat → RState → RState × List Emission
  | [], st => (st, [])
  | k :: rest, st =>
    let st := st.withMods (toggle_modifiers config (Event.key k) 0 st.modifiers)
    let (stf, out) := releaseLoopNonmapped config rest st
    (stf, ⟨Chan.keys, k, 0⟩ :: out)

/-- The output-key loop of emit_event (lines 515-534): per output key,
optionally toggle chord membership, then either run the custom-modifier
tap logic or emit the key with the incoming value. -/
def emitKeysLoop (config : Config) (value : Int) (release_keys : Bool) :
    List Nat → RState → RState × List Emission
  | [], st => (st, [])
  | k :: rest, st =>
    let st :=
      if release_keys ∧ value ≠ 2 then
        st.withMods (toggle_modifiers config (Event.key k) value st.modifiers)
      else st
    if config.mapped_modifiers.custom.contains (Event.key k) then
      if value = 0 ∧ st.modifier_was_activated = false then
        let (stf, out) := emitKeysLoop config value release_keys rest (st.withFlag true)
        (stf, ⟨Chan.keys, k, 1⟩ :: ⟨Chan.keys, k, 0⟩ :: out)
      else if value = 1 then
        emitKeysLoop config value release_keys rest (st.withFlag false)
      else emitKeysLoop config value release_keys rest st
    else
      let (stf, out) := emitKeysLoop config value release_keys rest (st.withFlag true)
      (stf, ⟨Chan.keys, k, value⟩ :: out)

/-- emit_event (event_reader.rs lines 487-535). -/
def emit_event (config : Config) (event_list : List Nat) (value : Int)
    (modifiers : Chord) (release_keys ignore_modifiers : Bool)
    (st : RState) : RState × List Emission :=
  let (st, out1) :=
    if release_keys ∧ value ≠ 2 then
      releaseLoopMapped config (released_keys config modifiers) st
    else if ignore_modifiers then
      (st, modifiers.filterMap (fun e =>
        match e with
        | Event.key k => some ⟨Chan.keys, k, 0⟩
        | _ => none))
    else (st, [])
  let (st, out2) := emitKeysLoop config value release_keys event_list st
  (st, out1 ++ out2)

/-- emit_nonmapped_event (event_reader.rs lines 537-574). -/
def emit_nonmapped_event (config : Config) (default_event : DefaultEvent)
    (event : Event) (value : Int) (modifiers : Chord)
    (st : RState) : RState × List Emission :=
  let (st, out1) :=
    if config.mapped_modifiers.all.contains event ∧ value ≠ 2 then
      releaseLoopNonmapped config (released_keys config modifiers) st
    else (st, [])
  let st := st.withMods (toggle_modifiers config event value st.modifiers)
  if config.mapped_modifiers.custom.contains event then
    if value = 0 ∧ st.modifier_was_activated = false then
      (st.withFlag true,
        out1 ++ [⟨Chan.keys, default_event.code, 1⟩, ⟨Chan.keys, default_event.code, 0⟩])
    else if value = 1 then (st.withFlag false, out1)
    else (st, out1)
  else
    let st := st.withFlag true
    match default_event.etype with
    | EType.KEY => (st, out1 ++ [⟨Chan.keys, default_event.code, default_event.value⟩])
    | EType.RELATIVE => (st, out1 ++ [⟨Chan.axis, default_event.code, default_event.value⟩])
    | _ => (st, out1)

/-- emit_movement (event_reader.rs lines 584-597). -/
def emit_movement (movement : Relative) (value : Int) (st : RState) : RState :=
  match movement with
  | Relative.cursor Cursor.CURSOR_UP => { st with cursor_movement := (st.cursor_movement.1, -value) }
  | Relative.cursor Cursor.CURSOR_DOWN => { st with cursor_movement := (st.cursor_movement.1, value) }
  | Relative.cursor Cursor.CURSOR_LEFT => { st with cursor_movement := (-value, st.cursor_movement.2) }
  | Relative.cursor Cursor.CURSOR_RIGHT => { st with cursor_movement := (value, st.cursor_movement.2) }
  | Relative.scroll Scroll.SCROLL_UP => { st with scroll_movement := (st.scroll_movement.1, -value) }
  | Relative.scroll Scroll.SCROLL_DOWN => { st with scroll_movement := (st.scroll_movement.1, value) }
  | Relative.scroll Scroll.SCROLL_LEFT => { st with scroll_movement := (-value, st.scroll_movement.2) }
  | Relative.scroll Scroll.SCROLL_RIGHT => { st with scroll_movement := (value, st.scroll_movement.2) }

/-- Abbreviation for the ruby interception test of convert_event. -/
def rubyHit (config : Config) (rubyOn : Bool) (event : Event) (mods : Chord) : Prop :=
  rubyOn = true ∧
    ((alookup config.bindings.rubies event).bind
      (fun map => alookup map mods)).isSome = true

instance (config : Config) (rubyOn : Bool) (event : Event) (mods : Chord) :
    Decidable (rubyHit config rubyOn event mods) := by
  unfold rubyHit
  infer_instance

/-- The Hold-chord lookup of convert_event (lines 460-465): the entry is
used only when the live chord is non-empty or chain_only is false. -/
def holdEntry (map : List (Chord × List Nat)) (modifiers : Chord)
    (chain_only : Bool) : Option (List Nat) :=
  match alookup map [Event.hold] with
  | some event_list =>
    if ¬modifiers.isEmpty ∨ chain_only = false then some event_list else none
  | none => none

/-- convert_event (event_reader.rs lines 398-485) for a fixed active
Config.  The update_config call (config switching, modelled separately
for the Context claims) is not part of this per-event step; rubyOn
models the presence of the optional RubyService.  Returns the new
runtime state and the records written to the virtual device. -/
def convert_event (config : Config) (chain_only rubyOn : Bool)
    (default_event : DefaultEvent) (event : Event) (value : Int)
    (send_zero : Bool) (st : RState) : RState × List Emission :=
  if rubyHit config rubyOn event st.modifiers then
    (st, [])
  else
    let modifiers := st.modifiers
    match alookup config.bindings.remap event with
    | none => emit_nonmapped_event config default_event event value modifiers st
    | some map =>
      match alookup map modifiers with
      | some event_list =>
        let (st, out) := emit_event config event_list value modifiers
          modifiers.isEmpty (!modifiers.isEmpty) st
        if send_zero then
          let modifiers2 := st.modifiers
          let (st, out2) := emit_event config event_list 0 modifiers2
            modifiers2.isEmpty (!modifiers2.isEmpty) st
          (st, out ++ out2)
        else (st, out)
      | none =>
        match holdEntry map modifiers chain_only with
        | some event_list => emit_event config event_list value modifiers false false st
        | none =>
          match (alookup config.bindings.movements event).bind
              (fun m => alookup m modifiers) with
          | some movement =>
            if value ≤ 1 then (emit_movement movement value st, []) else (st, [])
          | none =>
            match alookup map [] with
            | some event_list =>
              let (st, out) := emit_event config event_list value modifiers true false st
              if send_zero then
                let modifiers2 := st.modifiers
                let (st, out2) := emit_event config event_list 0 modifiers2 true false st
                (st, out ++ out2)
              else (st, out)
            | none => emit_nonmapped_event config default_event event value modifiers st

/-- The deadzone-and-scale step of get_axis_value on the centered input
(event_reader.rs lines 604-608).  Rust i32 division truncates toward
zero, which is Int.tdiv. -/
def digitize (deadzone : Int) (distance_from_center : Int) : Int :=
  if |distance_from_center| ≤ deadzone * 200 then 0
  else Int.tdiv (distance_from_center + 2000 - 1) 2000

/-- get_axis_value (event_reader.rs lines 599-609): center the raw
sample for 8-bit sources, then digitize. -/
def get_axis_value (axis_16_bit : Bool) (deadzone : Int) (value : Int) : Int :=
  let distance_from_center := if axis_16_bit = false then (value - 128) * 200 else value
  digitize deadzone distance_from_center

/-- The ABS_Z trigger handler of event_loop (event_reader.rs lines
365-377): tracked state in triggers_values.0, returning the new state
and the digitized (event, value) pair fed to convert_event, if any.
The match arms are (0, 1) then (_, 0) then the catch-all. -/
def trigger_axis_step (value : Int) (tstate : Int) : Int × Option (Event × Int) :=
  if value = 0 ∧ tstate = 1 then (0, some (Event.axis Axis.BTN_TL2, 0))
  else if tstate = 0 then (1, some (Event.axis Axis.BTN_TL2, 1))
  else (tstate, none)

/-- Window-class identity (udev_monitor.rs Client). -/
inductive Client where
  | Default
  | Class (s : String)
  deriving DecidableEq, Repr

/-- struct Associations of src/config.rs: window class plus layout. -/
structure Associations where
  client : Client
  layout : Nat
  deriving DecidableEq, Repr

/-- The layout advance of change_active_layout (lines 640-644). -/
def nextLayout (al : Nat) : Nat := if al = 3 then 0 else al + 1

/-- The break condition of the change_active_layout loop (lines 645-649). -/
def layoutMatches (config : List Associations) (active_window : Client) (al : Nat) : Bool :=
  config.any fun x => decide (x.layout = al ∧ x.client = active_window)

/-- change_active_layout (event_reader.rs lines 636-651) as a
fuel-indexed loop: each iteration advances the layout, then breaks if a
Context matches the (advanced layout, active window) pair.  The Rust
loop is unbounded; none models not breaking within the given fuel. -/
def change_active_layout_loop (config : List Associations) (active_window : Client) :
    Nat → Nat → Option Nat
  | 0, _ => none
  | fuel + 1, al =>
    let al := nextLayout al
    if layoutMatches config active_window al then some al
    else change_active_layout_loop config active_window fuel al

/-- The Context lookup of update_config (lines 661): find a config whose
associations equal the (active window, active layout) pair. -/
def find_config (config : List Associations) (assoc : Associations) : Option Associations :=
  config.find? fun x => decide (x = assoc)

/-- Axis::from_str (config.rs lines 36-61). -/
def Axis.fromStr (s : String) : Option Axis :=
  if s = "BTN_DPAD_UP" then some .BTN_DPAD_UP
  else if s = "BTN_DPAD_DOWN" then some .BTN_DPAD_DOWN
  else if s = "BTN_DPAD_LEFT" then some .BTN_DPAD_LEFT
  else if s = "BTN_DPAD_RIGHT" then some .BTN_DPAD_RIGHT
  else if s = "LSTICK_UP" then some .LSTICK_UP
  else if s = "LSTICK_DOWN" then some .LSTICK_DOWN
  else if s = "LSTICK_LEFT" then some .LSTICK_LEFT
  else if s = "LSTICK_RIGHT" then some .LSTICK_RIGHT
  else if s = "RSTICK_UP" then some .RSTICK_UP
  else if s = "RSTICK_DOWN" then some .RSTICK_DOWN
  else if s = "RSTICK_LEFT" then some .RSTICK_LEFT
  else if s = "RSTICK_RIGHT" then some .RSTICK_RIGHT
  else if s = "SCROLL_WHEEL_UP" then some .SCROLL_WHEEL_UP
  else if s = "SCROLL_WHEEL_DOWN" then some .SCROLL_WHEEL_DOWN
  else if s = "BTN_TL2" then some .BTN_TL2
  else if s = "BTN_TR2" then some .BTN_TR2
  else if s = "ABS_WHEEL_CW" then some .ABS_WHEEL_CW
  else if s = "ABS_WHEEL_CCW" then some .ABS_WHEEL_CCW
  else none

/-- Relative::from_str (config.rs lines 87-102). -/
def Relative.fromStr (s : String) : Option Relative :=
  if s = "CURSOR_UP" then some (.cursor .CURSOR_UP)
  else if s = "CURSOR_DOWN" then some (.cursor .CURSOR_DOWN)
  else if s = "CURSOR_LEFT" then some (.cursor .CURSOR_LEFT)
  else if s = "CURSOR_RIGHT" then some (.cursor .CURSOR_RIGHT)
  else if s = "SCROLL_UP" then some (.scroll .SCROLL_UP)
  else if s = "SCROLL_DOWN" then some (.scroll .SCROLL_DOWN)
  else if s = "SCROLL_LEFT" then some (.scroll .SCROLL_LEFT)
  else if s = "SCROLL_RIGHT" then some (.scroll .SCROLL_RIGHT)
  else none

/-- The raw, string-keyed configuration tables (struct RawConfig of
config.rs); HashMap iteration becomes list order. -/
structure RawConfig where
  remap : List (String × List Nat)
  movements : List (String × String)
  settings : List (String × String)
  rubies : List (String × String)
  deriving Repr

/-- Dash-splitting of a string, structurally recursive over its
characters (the semantics of str::split for the "-" separator). -/
def splitDashChars : List Char → List (List Char)
  | [] => [[]]
  | c :: rest =>
    if c = '-' then [] :: splitDashChars rest
    else
      match splitDashChars rest with
      | [] => [[c]]
      | g :: gs => (c :: g) :: gs

def splitDash (s : String) : List String :=
  (splitDashChars s.data).map (fun cs => ⟨cs⟩)

/-- Joining with dashes (inverse of splitDash on its output). -/
def joinDash : List String → String
  | [] => ""
  | [a] => a
  | a :: rest => a ++ "-" ++ joinDash rest

/-- parse_modifiers (config.rs lines 246-264): split the setting value on
dashes, resolving each token first as a physical key (the external evdev
Key::from_str, modelled by the keyOf parameter), then as an Axis;
unresolvable tokens are skipped. -/
def parse_modifiers (keyOf : String → Option Nat)
    (settings : List (String × String)) (parameter : String) : List Event :=
  match alookup settings parameter with
  | some modifiers =>
    (splitDash modifiers).foldl
      (fun acc modifier =>
        match keyOf modifier with
        | some k => acc ++ [Event.key k]
        | none =>
          match Axis.fromStr modifier with
          | some a => acc ++ [Event.axis a]
          | none => acc)
      []
  | none => []

/-- get_multi_modifiers (config.rs lines 275-294): resolve each token of
the dash-split modifier prefix as an Axis first, then as a key;
unresolvable tokens are skipped.  Tokens outside the default modifier
set are the new custom modifiers; a leading empty token appends the
Hold sentinel. -/
def get_multi_modifiers (keyOf : String → Option Nat) (mods : String)
    (mapped_modifiers : MappedModifiers) : Chord × List Event :=
  let str_modifiers := splitDash mods
  let modifiers := str_modifiers.foldl
    (fun acc event =>
      match Axis.fromStr event with
      | some a => acc ++ [Event.axis a]
      | none =>
        match keyOf event with
        | some k => acc ++ [Event.key k]
        | none => acc)
    []
  let custom_modifiers := modifiers.filter
    (fun m => ¬ mapped_modifiers.default.contains m)
  let modifiers :=
    match str_modifiers with
    | [] => modifiers
    | s :: _ => if s = "" then modifiers ++ [Event.hold] else modifiers
  (modifiers, custom_modifiers)

/-- get_bindings (config.rs lines 296-314): resolve the trigger token as
an Axis first, then as a key; a trigger that resolves in neither symbol
space yields an empty map, silently dropping the rule. -/
def get_bindings {T : Type} (keyOf : String → Option Nat) (modifiers : Chord)
    (event_string : String) (output : T) : List (Event × List (Chord × T)) :=
  match Axis.fromStr event_string with
  | some event => [(Event.axis event, [(modifiers, output)])]
  | none =>
    match keyOf event_string with
    | some event => [(Event.key event, [(modifiers, output)])]
    | none => []

/-- str::rsplit_once for the dash delimiter: None when no dash occurs,
otherwise the prefix before the last dash and the suffix after it. -/
def rsplitOnceDash (s : String) : Option (String × String) :=
  match splitDash s with
  | [] => none
  | [_] => none
  | ps => some (joinDash ps.dropLast, ps.getLastD "")

/-- get_bindings_and_modifiers (config.rs lines 266-273). -/
def get_bindings_and_modifiers {T : Type} (keyOf : String → Option Nat)
    (input : String) (output : T) (mapped_modifiers : MappedModifiers) :
    List (Event × List (Chord × T)) × List Event :=
  match rsplitOnceDash input with
  | some (mods, event_string) =>
    let (modifiers, custom_modifiers) := get_multi_modifiers keyOf mods mapped_modifiers
    (get_bindings keyOf modifiers event_string output, custom_modifiers)
  | none => (get_bindings keyOf [] input output, [])

/-- HashMap insert-or-replace on an association list. -/
def insertReplace {α β : Type} [DecidableEq α]
    (m : List (α × β)) (kv : α × β) : List (α × β) :=
  if (alookup m kv.1).isSome then
    m.map (fun p => if p.1 = kv.1 then kv else p)
  else m ++ [kv]

/-- HashMap::extend: insert-or-replace every entry of n into m, so an
existing key's whole value is replaced. -/
def extendA {α β : Type} [DecidableEq α]
    (m n : List (α × β)) : List (α × β) :=
  n.foldl insertReplace m

/-- The remap / rubies rule loops of parse_raw_config (config.rs lines
219-229), generic over the output type: each rule's single-trigger map
is merged with extend, and its new custom modifiers are accumulated. -/
def ruleLoop {T : Type} (keyOf : String → Option Nat) :
    List (String × T) → List (Event × List (Chord × T)) × MappedModifiers →
    List (Event × List (Chord × T)) × MappedModifiers
  | [], st => st
  | (input, output) :: rest, (table, mm) =>
    let (custom_bindings, custom_modifiers) :=
      get_bindings_and_modifiers keyOf input output mm
    ruleLoop keyOf rest
      (extendA table custom_bindings,
       { mm with custom := mm.custom ++ custom_modifiers })

/-- The movements rule loop of parse_raw_config (config.rs lines
231-236): the output is parsed with Relative::from_str under expect, so
an unresolvable movement output aborts the whole load (none). -/
def movementsLoop (keyOf : String → Option Nat) :
    List (String × String) →
    List (Event × List (Chord × Relative)) × MappedModifiers →
    Option (List (Event × List (Chord × Relative)) × MappedModifiers)
  | [], st => some st
  | (input, bad_output) :: rest, (table, mm) =>
    match Relative.fromStr bad_output with
    | none => none
    | some output =>
      let (custom_bindings, custom_modifiers) :=
        get_bindings_and_modifiers keyOf input output mm
      movementsLoop keyOf rest
        (extendA table custom_bindings,
         { mm with custom := mm.custom ++ custom_modifiers })

/-- The fixed default hardware modifiers (config.rs lines 197-205), with
their evdev codes: LEFTSHIFT, LEFTCTRL, LEFTALT, RIGHTSHIFT, RIGHTCTRL,
RIGHTALT, LEFTMETA. -/
def default_modifiers : List Event :=
  [Event.key 42, Event.key 29, Event.key 56, Event.key 54,
   Event.key 97, Event.key 100, Event.key 125]

/-- parse_raw_config (config.rs lines 191-244). none models the expect
panic on an unresolvable movement output. -/
def parse_raw_config (keyOf : String → Option Nat) (raw : RawConfig) :
    Option (Bindings × List (String × String) × MappedModifiers) :=
  let mapped_modifiers : MappedModifiers :=
    { default := default_modifiers, custom := [], all := [] }
  let custom_modifiers := parse_modifiers keyOf raw.settings "CUSTOM_MODIFIERS"
  let lstick_activation_modifiers :=
    parse_modifiers keyOf raw.settings "LSTICK_ACTIVATION_MODIFIERS"
  let rstick_activation_modifiers :=
    parse_modifiers keyOf raw.settings "RSTICK_ACTIVATION_MODIFIERS"
  let mapped_modifiers :=
    { mapped_modifiers with
        custom := mapped_modifiers.custom ++ custom_modifiers ++
          lstick_activation_modifiers ++ rstick_activation_modifiers }
  let r1 := ruleLoop keyOf raw.remap ([], mapped_modifiers)
  let r2 := ruleLoop keyOf raw.rubies ([], r1.2)
  match movementsLoop keyOf raw.movements ([], r2.2) with
  | none => none
  | some r3 =>
    let mapped_modifiers :=
      { r3.2 with all := rustSortDedup (r3.2.default ++ r3.2.custom) }
    some ({ remap := r1.1, movements := r3.1, rubies := r2.1 },
      raw.settings, mapped_modifiers)

/-- Modifier-prefix token resolution in loop order: Axis first, then
physical key; unresolvable tokens contribute nothing. -/
def resolveTokens (keyOf : String → Option Nat) (ts : List String) : List Event :=
  ts.filterMap (fun t =>
    match Axis.fromStr t with
    | some a => some (Event.axis a)
    | none =>
      match keyOf t with
      | some k => some (Event.key k)
      | none => none)

/-! ## Chord canonical form -/

/-- Canonical chord: sorted and duplicate-free. -/
def Canonical (c : Chord) : Prop := c.Sorted (· ≤ ·) ∧ c.Nodup

/-- A value-1 keys-channel emission of a key classified as a custom
modifier: the opening half of a synthetic tap pulse. -/
def isCustomPress (config : Config) (e : Emission) : Prop :=
  e.chan = Chan.keys ∧ e.value = 1 ∧
    config.mapped_modifiers.custom.contains (Event.key e.code) = true

instance (config : Config) (e : Emission) : Decidable (isCustomPress config e) := by
  unfold isCustomPress
  infer_instance

/-- Every value-1 keys-channel emission of a custom-modifier key code is
immediately followed by a value-0 emission of the same code (the
synthetic tap pulse shape). -/
def pairedOk (config : Config) : List Emission → Bool
  | [] => true
  | [e] => !(decide (isCustomPress config e))
  | e :: e' :: rest =>
    if isCustomPress config e then
      decide (e' = ⟨Chan.keys, e.code, 0⟩) && pairedOk config (e' :: rest)
    else pairedOk config (e' :: rest)

/-- Folding value-1 toggles over a list of incoming modifier events. -/
def insertAll (config : Config) (c : Chord) (l : List Event) : Chord :=
  l.foldl (fun c m => toggle_modifiers config m 1 c) c

/-- The chord members physically released by the ignore_modifiers path. -/
def ignoreReleases (mods : Chord) : List Emission :=
  mods.filterMap (fun e =>
    match e with
    | Event.key k => some ⟨Chan.keys, k, 0⟩
    | _ => none)


theorem mem_dedupAdj {a : Event} : ∀ {l : List Event}, a ∈ dedupAdj l ↔ a ∈ l := by
  intro l
  induction l using dedupAdj.induct with
  | case1 => simp [dedupAdj]
  | case2 => simp [dedupAdj]
  | case3 b rest ih =>
    have hd : dedupAdj (b :: b :: rest) = dedupAdj (b :: rest) := by
      rw [dedupAdj]
      simp
    rw [hd, ih]
    simp [List.mem_cons]
  | case4 b c rest h ih =>
    simp only [dedupAdj, if_neg h, List.mem_cons, ih]

theorem sorted_dedupAdj : ∀ {l : List Event}, l.Sorted (· ≤ ·) →
    (dedupAdj l).Sorted (· ≤ ·) := by
  intro l
  induction l using dedupAdj.induct with
  | case1 => simp [dedupAdj]
  | case2 => simp [dedupAdj]
  | case3 b rest ih =>
    intro hs
    simpa [dedupAdj] using ih hs.tail
  | case4 b c rest h ih =>
    intro hs
    rw [List.sorted_cons] at hs
    simp only [dedupAdj, if_neg h]
    rw [List.sorted_cons]
    refine ⟨?_, ih hs.2⟩
    intro x hx
    exact hs.1 x (by simpa [mem_dedupAdj] using hx)

theorem nodup_dedupAdj : ∀ {l : List Event}, l.Sorted (· ≤ ·) →
    (dedupAdj l).Nodup := by
  intro l
  induction l using dedupAdj.induct with
  | case1 => simp [dedupAdj]
  | case2 => simp [dedupAdj]
  | case3 b rest ih =>
    intro hs
    simpa [dedupAdj] using ih hs.tail
  | case4 b c rest h ih =>
    intro hs
    rw [List.sorted_cons] at hs
    simp only [dedupAdj, if_neg h]
    refine List.Nodup.cons ?_ (ih hs.2)
    intro hmem
    have hmem' : b ∈ c :: rest := by simpa [mem_dedupAdj] using hmem
    rcases List.mem_cons.mp hmem' with hb | hb
    · exact h hb
    · have hcb : c ≤ b := (List.sorted_cons.mp hs.2).1 b hb
      have hbc : b ≤ c := hs.1 c (by simp)
      exact h (le_antisymm hbc hcb)

theorem mem_rustSortDedup {a : Event} {l : Chord} :
    a ∈ rustSortDedup l ↔ a ∈ l := by
  rw [rustSortDedup, mem_dedupAdj]
  exact (List.perm_insertionSort (· ≤ ·) l).mem_iff

theorem canonical_rustSortDedup (l : Chord) : Canonical (rustSortDedup l) := by
  have hs : (l.insertionSort (· ≤ ·)).Sorted (· ≤ ·) :=
    List.sorted_insertionSort (· ≤ ·) l
  exact ⟨sorted_dedupAdj hs, nodup_dedupAdj hs⟩

/-- Two canonical chords with the same members are equal. -/
theorem canonical_ext {l₁ l₂ : Chord} (h₁ : Canonical l₁) (h₂ : Canonical l₂)
    (hmem : ∀ a, a ∈ l₁ ↔ a ∈ l₂) : l₁ = l₂ :=
  List.eq_of_perm_of_sorted
    ((List.perm_ext_iff_of_nodup h₁.2 h₂.2).mpr hmem) h₁.1 h₂.1

theorem canonical_toggle (config : Config) (m : Event) (v : Int) {c : Chord}
    (hc : Canonical c) : Canonical (toggle_modifiers config m v c) := by
  unfold toggle_modifiers
  split
  · split
    · exact canonical_rustSortDedup _
    · split
      · exact ⟨List.Pairwise.filter _ hc.1, List.Nodup.filter _ hc.2⟩
      · exact hc
  · exact hc

theorem contains_iff_mem (l : List Event) (a : Event) :
    l.contains a = true ↔ a ∈ l := by
  simp

theorem mem_toggle_one (config : Config) (m : Event) (c : Chord) (a : Event) :
    a ∈ toggle_modifiers config m 1 c ↔
      a ∈ c ∨ (a = m ∧ config.mapped_modifiers.all.contains m = true) := by
  unfold toggle_modifiers
  split
  · next hall =>
    rw [contains_iff_mem] at hall
    simp [mem_rustSortDedup, hall]
  · next hall =>
    rw [contains_iff_mem] at hall
    simp [hall]

theorem mem_toggle_zero (config : Config) (m : Event) (c : Chord) (a : Event) :
    a ∈ toggle_modifiers config m 0 c ↔
      a ∈ c ∧ ¬(a = m ∧ config.mapped_modifiers.all.contains m = true) := by
  unfold toggle_modifiers
  split
  · next hall =>
    rw [contains_iff_mem] at hall
    simp only [if_neg (by norm_num : ¬(0 : Int) = 1), if_pos rfl]
    simp [List.mem_filter, hall]
  · next hall =>
    rw [contains_iff_mem] at hall
    simp [hall]

/-- If an event was in the chord and is gone after a toggle, the toggle
was a value-0 removal of exactly that event. -/
theorem toggle_remove_char (config : Config) (m : Event) (v : Int) {c : Chord}
    {a : Event} (hin : a ∈ c) (hout : a ∉ toggle_modifiers config m v c) :
    m = a ∧ v = 0 ∧ config.mapped_modifiers.all.contains a = true := by
  unfold toggle_modifiers at hout
  by_cases hall : config.mapped_modifiers.all.contains m
  · rw [if_pos hall] at hout
    by_cases h1 : v = 1
    · rw [if_pos h1] at hout
      exact absurd (mem_rustSortDedup.mpr (by simp [hin])) hout
    · rw [if_neg h1] at hout
      by_cases h0 : v = 0
      · rw [if_pos h0] at hout
        simp only [List.mem_filter, decide_eq_true_eq] at hout
        push_neg at hout
        have := hout hin
        simp only [ne_eq, not_not] at this
        subst this
        exact ⟨rfl, h0, hall⟩
      · rw [if_neg h0] at hout
        exact absurd hin hout
  · rw [if_neg hall] at hout
    exact absurd hin hout

theorem canonical_insertAll (config : Config) {c : Chord} (hc : Canonical c)
    (l : List Event) : Canonical (insertAll config c l) := by
  induction l generalizing c with
  | nil => exact hc
  | cons m rest ih => exact ih (canonical_toggle config m 1 hc)

theorem mem_insertAll (config : Config) (c : Chord) (l : List Event) (a : Event) :
    a ∈ insertAll config c l ↔
      a ∈ c ∨ (a ∈ l ∧ config.mapped_modifiers.all.contains a = true) := by
  induction l generalizing c with
  | nil => simp [insertAll]
  | cons m rest ih =>
    show a ∈ insertAll config (toggle_modifiers config m 1 c) rest ↔ _
    rw [ih, mem_toggle_one]
    constructor
    · rintro ((h | ⟨rfl, h⟩) | h)
      · exact Or.inl h
      · exact Or.inr ⟨by simp, h⟩
      · exact Or.inr ⟨by simp [h.1], h.2⟩
    · rintro (h | ⟨hm, h⟩)
      · exact Or.inl (Or.inl h)
      · rcases List.mem_cons.mp hm with rfl | hm
        · exact Or.inl (Or.inr ⟨rfl, h⟩)
        · exact Or.inr ⟨hm, h⟩

/-! ## Stuck-key bookkeeping -/

theorem pairedOk_append {config : Config} : ∀ {a b : List Emission},
    pairedOk config a = true → pairedOk config b = true →
    pairedOk config (a ++ b) = true := by
  intro a
  induction a with
  | nil => intro b _ hb; simpa using hb
  | cons e ta ih =>
    intro b ha hb
    cases ta with
    | nil =>
      rw [pairedOk] at ha
      rw [Bool.not_eq_true', decide_eq_false_iff_not] at ha
      cases b with
      | nil => simp [pairedOk, ha]
      | cons b0 bs =>
        show pairedOk config (e :: b0 :: bs) = true
        rw [pairedOk, if_neg ha]
        exact hb
    | cons e' ta' =>
      by_cases hcond : isCustomPress config e
      · rw [pairedOk, if_pos hcond] at ha
        rw [Bool.and_eq_true, decide_eq_true_eq] at ha
        show pairedOk config (e :: (e' :: (ta' ++ b))) = true
        rw [pairedOk, if_pos hcond]
        rw [Bool.and_eq_true, decide_eq_true_eq]
        exact ⟨ha.1, ih ha.2 hb⟩
      · rw [pairedOk, if_neg hcond] at ha
        show pairedOk config (e :: (e' :: (ta' ++ b))) = true
        rw [pairedOk, if_neg hcond]
        exact ih ha hb

theorem not_isCustomPress_of_zero {config : Config} {e : Emission}
    (he : e.value = 0) : ¬ isCustomPress config e := by
  intro h
  have h1 := h.2.1
  rw [he] at h1
  norm_num at h1

theorem pairedOk_of_all_zero {config : Config} : ∀ {out : List Emission},
    (∀ e ∈ out, e.value = 0) → pairedOk config out = true := by
  intro out
  induction out with
  | nil => intro _; rfl
  | cons e rest ih =>
    intro h
    have he : e.value = 0 := h e (by simp)
    have hcond : ¬ isCustomPress config e := not_isCustomPress_of_zero he
    cases rest with
    | nil => simp [pairedOk, hcond]
    | cons e' rest' =>
      rw [pairedOk, if_neg hcond]
      exact ih (fun x hx => h x (by simp [hx]))

theorem pairedOk_cons_not {config : Config} {e : Emission}
    (h : ¬ isCustomPress config e) (rest : List Emission) :
    pairedOk config (e :: rest) = pairedOk config rest := by
  cases rest with
  | nil =>
    rw [pairedOk]
    simp [h, pairedOk]
  | cons e' rest' => rw [pairedOk, if_neg h]

theorem pairedOk_cons_pair {config : Config} {e : Emission}
    (h : isCustomPress config e) (rest : List Emission) :
    pairedOk config (e :: (⟨Chan.keys, e.code, 0⟩ : Emission) :: rest) =
      pairedOk config ((⟨Chan.keys, e.code, 0⟩ : Emission) :: rest) := by
  rw [pairedOk, if_pos h]
  simp

theorem releaseLoopMapped_spec (config : Config) : ∀ (ks : List Nat) (st : RState),
    (∀ e ∈ (releaseLoopMapped config ks st).2, e.value = 0) ∧
    (releaseLoopMapped config ks st).1.modifier_was_activated =
      st.modifier_was_activated ∧
    (∀ k : Nat, Event.key k ∈ st.modifiers →
      Event.key k ∉ (releaseLoopMapped config ks st).1.modifiers →
      (⟨Chan.keys, k, 0⟩ : Emission) ∈ (releaseLoopMapped config ks st).2) := by
  intro ks
  induction ks with
  | nil =>
    intro st
    refine ⟨by simp [releaseLoopMapped], rfl, ?_⟩
    intro k hin hout
    exact absurd hin hout
  | cons k' rest ih =>
    intro st
    by_cases hall : config.mapped_modifiers.all.contains (Event.key k') = true
    · have hred : releaseLoopMapped config (k' :: rest) st =
          ((releaseLoopMapped config rest
            (st.withMods (toggle_modifiers config (Event.key k') 0 st.modifiers))).1,
           ⟨Chan.keys, k', 0⟩ ::
            (releaseLoopMapped config rest
              (st.withMods (toggle_modifiers config (Event.key k') 0 st.modifiers))).2) := by
        rw [releaseLoopMapped, if_pos hall]
      set st' := st.withMods (toggle_modifiers config (Event.key k') 0 st.modifiers) with hst'
      obtain ⟨ihz, ihflag, ihrel⟩ := ih st'
      rw [hred]
      refine ⟨?_, ihflag, ?_⟩
      · intro e he
        rcases List.mem_cons.mp he with rfl | he
        · rfl
        · exact ihz e he
      · intro k hin hout
        simp only at hout
        by_cases hmid : Event.key k ∈ st'.modifiers
        · exact List.mem_cons_of_mem _ (ihrel k hmid hout)
        · have hchar := toggle_remove_char config (Event.key k') 0 hin
            (by simpa [hst', RState.withMods] using hmid)
          have : k' = k := by
            have := hchar.1
            injection this
          subst this
          simp
    · have hred : releaseLoopMapped config (k' :: rest) st =
          releaseLoopMapped config rest st := by
        rw [releaseLoopMapped, if_neg hall]
      rw [hred]
      exact ih st

theorem releaseLoopNonmapped_spec (config : Config) : ∀ (ks : List Nat) (st : RState),
    (∀ e ∈ (releaseLoopNonmapped config ks st).2, e.value = 0) ∧
    (releaseLoopNonmapped config ks st).1.modifier_was_activated =
      st.modifier_was_activated ∧
    (∀ k : Nat, Event.key k ∈ st.modifiers →
      Event.key k ∉ (releaseLoopNonmapped config ks st).1.modifiers →
      (⟨Chan.keys, k, 0⟩ : Emission) ∈ (releaseLoopNonmapped config ks st).2) := by
  intro ks
  induction ks with
  | nil =>
    intro st
    refine ⟨by simp [releaseLoopNonmapped], rfl, ?_⟩
    intro k hin hout
    exact absurd hin hout
  | cons k' rest ih =>
    intro st
    have hred : releaseLoopNonmapped config (k' :: rest) st =
        ((releaseLoopNonmapped config rest
          (st.withMods (toggle_modifiers config (Event.key k') 0 st.modifiers))).1,
         ⟨Chan.keys, k', 0⟩ ::
          (releaseLoopNonmapped config rest
            (st.withMods (toggle_modifiers config (Event.key k') 0 st.modifiers))).2) := by
      rw [releaseLoopNonmapped]
    set st' := st.withMods (toggle_modifiers config (Event.key k') 0 st.modifiers) with hst'
    obtain ⟨ihz, ihflag, ihrel⟩ := ih st'
    rw [hred]
    refine ⟨?_, ihflag, ?_⟩
    · intro e he
      rcases List.mem_cons.mp he with rfl | he
      · rfl
      · exact ihz e he
    · intro k hin hout
      simp only at hout
      by_cases hmid : Event.key k ∈ st'.modifiers
      · exact List.mem_cons_of_mem _ (ihrel k hmid hout)
      · have hchar := toggle_remove_char config (Event.key k') 0 hin
          (by simpa [hst', RState.withMods] using hmid)
        have : k' = k := by
          have := hchar.1
          injection this
        subst this
        simp

theorem emitKeysLoop_release (config : Config) (value : Int) (rk : Bool) :
    ∀ (el : List Nat) (st : RState) (k : Nat),
      config.mapped_modifiers.custom.contains (Event.key k) = false →
      Event.key k ∈ st.modifiers →
      Event.key k ∉ (emitKeysLoop config value rk el st).1.modifiers →
      (⟨Chan.keys, k, 0⟩ : Emission) ∈ (emitKeysLoop config value rk el st).2 := by
  intro el
  induction el with
  | nil =>
    intro st k _ hin hout
    exact absurd hin hout
  | cons k' rest ih =>
    intro st k hk hin hout
    set st1 := if rk ∧ value ≠ 2 then
        st.withMods (toggle_modifiers config (Event.key k') value st.modifiers)
      else st with hst1
    by_cases hmid : Event.key k ∈ st1.modifiers
    · -- the key survives this iteration's optional toggle
      by_cases hck : config.mapped_modifiers.custom.contains (Event.key k') = true
      · by_cases htap : value = 0 ∧ st1.modifier_was_activated = false
        · have hred : emitKeysLoop config value rk (k' :: rest) st =
              ((emitKeysLoop config value rk rest (st1.withFlag true)).1,
               ⟨Chan.keys, k', 1⟩ :: ⟨Chan.keys, k', 0⟩ ::
                 (emitKeysLoop config value rk rest (st1.withFlag true)).2) := by
            rw [emitKeysLoop, ← hst1, if_pos hck, if_pos htap]
          rw [hred] at hout ⊢
          exact List.mem_cons_of_mem _ (List.mem_cons_of_mem _
            (ih (st1.withFlag true) k hk hmid hout))
        · by_cases hone : value = 1
          · have hred : emitKeysLoop config value rk (k' :: rest) st =
                emitKeysLoop config value rk rest (st1.withFlag false) := by
              rw [emitKeysLoop, ← hst1, if_pos hck, if_neg htap, if_pos hone]
            rw [hred] at hout ⊢
            exact ih (st1.withFlag false) k hk hmid hout
          · have hred : emitKeysLoop config value rk (k' :: rest) st =
                emitKeysLoop config value rk rest st1 := by
              rw [emitKeysLoop, ← hst1, if_pos hck, if_neg htap, if_neg hone]
            rw [hred] at hout ⊢
            exact ih st1 k hk hmid hout
      · have hred : emitKeysLoop config value rk (k' :: rest) st =
            ((emitKeysLoop config value rk rest (st1.withFlag true)).1,
             ⟨Chan.keys, k', value⟩ ::
               (emitKeysLoop config value rk rest (st1.withFlag true)).2) := by
          rw [emitKeysLoop, ← hst1, if_neg (by simpa using hck)]
        rw [hred] at hout ⊢
        exact List.mem_cons_of_mem _ (ih (st1.withFlag true) k hk hmid hout)
    · -- the key was removed by this iteration's toggle
      have hcase : (rk ∧ value ≠ 2) := by
        by_contra hc
        rw [hst1, if_neg hc] at hmid
        exact hmid hin
      rw [hst1, if_pos hcase] at hmid
      have hchar := toggle_remove_char config (Event.key k') value hin
        (by simpa [RState.withMods] using hmid)
      have hkk : k' = k := by
        have := hchar.1
        injection this
      subst hkk
      have hv0 : value = 0 := hchar.2.1
      have hck : config.mapped_modifiers.custom.contains (Event.key k') = false := hk
      have hred : emitKeysLoop config value rk (k' :: rest) st =
          ((emitKeysLoop config value rk rest (st1.withFlag true)).1,
           ⟨Chan.keys, k', value⟩ ::
             (emitKeysLoop config value rk rest (st1.withFlag true)).2) := by
        rw [emitKeysLoop, ← hst1, if_neg (by simpa using hck)]
      rw [hred]
      rw [hv0]
      simp

theorem emitKeysLoop_pairedOk (config : Config) (value : Int) (rk : Bool) :
    ∀ (el : List Nat) (st : RState),
      pairedOk config (emitKeysLoop config value rk el st).2 = true := by
  intro el
  induction el with
  | nil => intro st; rfl
  | cons k' rest ih =>
    intro st
    set st1 := if rk ∧ value ≠ 2 then
        st.withMods (toggle_modifiers config (Event.key k') value st.modifiers)
      else st with hst1
    by_cases hck : config.mapped_modifiers.custom.contains (Event.key k') = true
    · by_cases htap : value = 0 ∧ st1.modifier_was_activated = false
      · have hred : emitKeysLoop config value rk (k' :: rest) st =
            ((emitKeysLoop config value rk rest (st1.withFlag true)).1,
             ⟨Chan.keys, k', 1⟩ :: ⟨Chan.keys, k', 0⟩ ::
               (emitKeysLoop config value rk rest (st1.withFlag true)).2) := by
          rw [emitKeysLoop, ← hst1, if_pos hck, if_pos htap]
        rw [hred]
        have hpress : isCustomPress config (⟨Chan.keys, k', 1⟩ : Emission) :=
          ⟨rfl, rfl, hck⟩
        rw [show ((⟨Chan.keys, k', 0⟩ : Emission)) =
              (⟨Chan.keys, (⟨Chan.keys, k', 1⟩ : Emission).code, 0⟩ : Emission) from rfl,
          pairedOk_cons_pair hpress,
          pairedOk_cons_not (not_isCustomPress_of_zero rfl)]
        exact ih (st1.withFlag true)
      · by_cases hone : value = 1
        · have hred : emitKeysLoop config value rk (k' :: rest) st =
              emitKeysLoop config value rk rest (st1.withFlag false) := by
            rw [emitKeysLoop, ← hst1, if_pos hck, if_neg htap, if_pos hone]
          rw [hred]
          exact ih (st1.withFlag false)
        · have hred : emitKeysLoop config value rk (k' :: rest) st =
              emitKeysLoop config value rk rest st1 := by
            rw [emitKeysLoop, ← hst1, if_pos hck, if_neg htap, if_neg hone]
          rw [hred]
          exact ih st1
    · have hck' : config.mapped_modifiers.custom.contains (Event.key k') = false := by
        simpa using hck
      have hred : emitKeysLoop config value rk (k' :: rest) st =
          ((emitKeysLoop config value rk rest (st1.withFlag true)).1,
           ⟨Chan.keys, k', value⟩ ::
             (emitKeysLoop config value rk rest (st1.withFlag true)).2) := by
        rw [emitKeysLoop, ← hst1, if_neg (by simpa using hck')]
      rw [hred]
      rw [pairedOk_cons_not (by
        intro h
        exact hck h.2.2)]
      exact ih (st1.withFlag true)

/-- Branch equations for emit_event. -/
theorem emit_event_eq_pos (config : Config) (el : List Nat) (value : Int)
    (mods : Chord) (rk ig : Bool) (st : RState) (h : rk = true ∧ value ≠ 2) :
    emit_event config el value mods rk ig st =
      ((emitKeysLoop config value rk el
          (releaseLoopMapped config (released_keys config mods) st).1).1,
       (releaseLoopMapped config (released_keys config mods) st).2 ++
         (emitKeysLoop config value rk el
           (releaseLoopMapped config (released_keys config mods) st).1).2) := by
  rcases hrl : releaseLoopMapped config (released_keys config mods) st with ⟨stm, out1⟩
  rcases hek : emitKeysLoop config value rk el stm with ⟨stf, out2⟩
  unfold emit_event
  rw [if_pos h, hrl]
  simp [hek]

theorem emit_event_eq_ignore (config : Config) (el : List Nat) (value : Int)
    (mods : Chord) (rk ig : Bool) (st : RState)
    (h : ¬ (rk = true ∧ value ≠ 2)) (hig : ig = true) :
    emit_event config el value mods rk ig st =
      ((emitKeysLoop config value rk el st).1,
       ignoreReleases mods ++ (emitKeysLoop config value rk el st).2) := by
  rcases hek : emitKeysLoop config value rk el st with ⟨stf, out2⟩
  unfold emit_event ignoreReleases
  rw [if_neg h, if_pos hig]
  simp [hek]

theorem emit_event_eq_plain (config : Config) (el : List Nat) (value : Int)
    (mods : Chord) (rk ig : Bool) (st : RState)
    (h : ¬ (rk = true ∧ value ≠ 2)) (hig : ig = false) :
    emit_event config el value mods rk ig st =
      ((emitKeysLoop config value rk el st).1,
       [] ++ (emitKeysLoop config value rk el st).2) := by
  rcases hek : emitKeysLoop config value rk el st with ⟨stf, out2⟩
  unfold emit_event
  rw [if_neg h, hig, if_neg (by simp)]
  simp [hek]

theorem ignoreReleases_all_zero (mods : Chord) :
    ∀ e ∈ ignoreReleases mods, e.value = 0 := by
  intro e he
  rw [ignoreReleases, List.mem_filterMap] at he
  rcases he with ⟨x, _, hx⟩
  cases x with
  | key k =>
    simp only [Option.some.injEq] at hx
    rw [← hx]
  | axis a => cases hx
  | hold => cases hx

/-- emit_event: a key that is not a custom modifier and leaves the chord
during the call receives a value-0 emission in the call's own output. -/
theorem emit_event_release (config : Config) (el : List Nat) (value : Int)
    (mods : Chord) (rk ig : Bool) (st : RState) (k : Nat)
    (hk : config.mapped_modifiers.custom.contains (Event.key k) = false)
    (hin : Event.key k ∈ st.modifiers)
    (hout : Event.key k ∉ (emit_event config el value mods rk ig st).1.modifiers) :
    (⟨Chan.keys, k, 0⟩ : Emission) ∈ (emit_event config el value mods rk ig st).2 := by
  by_cases h1 : (rk = true ∧ value ≠ 2)
  · rw [emit_event_eq_pos config el value mods rk ig st h1] at hout ⊢
    simp only at hout ⊢
    set stm := (releaseLoopMapped config (released_keys config mods) st).1 with hstm
    by_cases hmid : Event.key k ∈ stm.modifiers
    · exact List.mem_append_right _
        (emitKeysLoop_release config value rk el stm k hk hmid hout)
    · exact List.mem_append_left _
        ((releaseLoopMapped_spec config (released_keys config mods) st).2.2 k hin hmid)
  · rcases Bool.eq_false_or_eq_true ig with hig | hig
    · rw [emit_event_eq_ignore config el value mods rk ig st h1 hig] at hout ⊢
      simp only at hout ⊢
      exact List.mem_append_right _
        (emitKeysLoop_release config value rk el st k hk hin hout)
    · rw [emit_event_eq_plain config el value mods rk ig st h1 hig] at hout ⊢
      simp only [List.nil_append] at hout ⊢
      exact emitKeysLoop_release config value rk el st k hk hin hout

/-- emit_event output always satisfies the tap-pulse pairing shape. -/
theorem emit_event_pairedOk (config : Config) (el : List Nat) (value : Int)
    (mods : Chord) (rk ig : Bool) (st : RState) :
    pairedOk config (emit_event config el value mods rk ig st).2 = true := by
  by_cases h1 : (rk = true ∧ value ≠ 2)
  · rw [emit_event_eq_pos config el value mods rk ig st h1]
    exact pairedOk_append
      (pairedOk_of_all_zero
        (releaseLoopMapped_spec config (released_keys config mods) st).1)
      (emitKeysLoop_pairedOk config value rk el _)
  · rcases Bool.eq_false_or_eq_true ig with hig | hig
    · rw [emit_event_eq_ignore config el value mods rk ig st h1 hig]
      exact pairedOk_append
        (pairedOk_of_all_zero (ignoreReleases_all_zero mods))
        (emitKeysLoop_pairedOk config value rk el st)
    · rw [emit_event_eq_plain config el value mods rk ig st h1 hig]
      simp only [List.nil_append]
      exact emitKeysLoop_pairedOk config value rk el st

/-- emit_nonmapped_event: chord-release emission and tap-pulse pairing.
hwf1 ties default_event to a key-typed trigger; hwf2 says KEY-typed
default events only occur for key triggers (as in event_loop). -/
theorem emit_nonmapped_spec (config : Config) (de : DefaultEvent) (event : Event)
    (value : Int) (mods : Chord) (st : RState)
    (hwf1 : ∀ c, event = Event.key c → de = ⟨EType.KEY, c, value⟩)
    (hwf2 : de.etype = EType.KEY → event = Event.key de.code) :
    (∀ k : Nat, config.mapped_modifiers.custom.contains (Event.key k) = false →
      Event.key k ∈ st.modifiers →
      Event.key k ∉ (emit_nonmapped_event config de event value mods st).1.modifiers →
      (⟨Chan.keys, k, 0⟩ : Emission) ∈ (emit_nonmapped_event config de event value mods st).2) ∧
    pairedOk config (emit_nonmapped_event config de event value mods st).2 = true := by
  have hphase : ∃ st1 out1,
      (if config.mapped_modifiers.all.contains event = true ∧ value ≠ 2 then
        releaseLoopNonmapped config (released_keys config mods) st
      else (st, [])) = (st1, out1) ∧
      (∀ e ∈ out1, e.value = (0 : Int)) ∧
      (∀ k : Nat, Event.key k ∈ st.modifiers → Event.key k ∉ st1.modifiers →
        (⟨Chan.keys, k, 0⟩ : Emission) ∈ out1) := by
    by_cases hrel : config.mapped_modifiers.all.contains event = true ∧ value ≠ 2
    · refine ⟨_, _, by rw [if_pos hrel], ?_, ?_⟩
      · exact (releaseLoopNonmapped_spec config (released_keys config mods) st).1
      · exact (releaseLoopNonmapped_spec config (released_keys config mods) st).2.2
    · refine ⟨st, [], by rw [if_neg hrel], by simp, ?_⟩
      intro k hin hout
      exact absurd hin hout
  obtain ⟨st1, out1, hP, hz1, hrelk⟩ := hphase
  have hred : emit_nonmapped_event config de event value mods st =
      (let st2 := st1.withMods (toggle_modifiers config event value st1.modifiers)
       if config.mapped_modifiers.custom.contains event = true then
        if value = 0 ∧ st2.modifier_was_activated = false then
          (st2.withFlag true,
            out1 ++ [⟨Chan.keys, de.code, 1⟩, ⟨Chan.keys, de.code, 0⟩])
        else if value = 1 then (st2.withFlag false, out1)
        else (st2, out1)
      else
        let st3 := st2.withFlag true
        match de.etype with
        | EType.KEY => (st3, out1 ++ [⟨Chan.keys, de.code, de.value⟩])
        | EType.RELATIVE => (st3, out1 ++ [⟨Chan.axis, de.code, de.value⟩])
        | _ => (st3, out1)) := by
    unfold emit_nonmapped_event
    rw [hP]
  rw [hred]
  set st2 := st1.withMods (toggle_modifiers config event value st1.modifiers) with hst2
  have hmods_or : ∀ k : Nat, Event.key k ∈ st.modifiers →
      Event.key k ∉ st2.modifiers →
      (⟨Chan.keys, k, 0⟩ : Emission) ∈ out1 ∨
        (event = Event.key k ∧ value = 0) := by
    intro k hin hout
    by_cases hmid : Event.key k ∈ st1.modifiers
    · right
      have hchar := toggle_remove_char config event value hmid
        (by simpa [hst2, RState.withMods] using hout)
      exact ⟨hchar.1, hchar.2.1⟩
    · left
      exact hrelk k hin hmid
  by_cases hcust : config.mapped_modifiers.custom.contains event = true
  · rw [if_pos hcust]
    by_cases htap : value = 0 ∧ st2.modifier_was_activated = false
    · rw [if_pos htap]
      constructor
      · intro k hk hin hout
        simp only [RState.withFlag] at hout
        rcases hmods_or k hin hout with h | ⟨hek, _⟩
        · exact List.mem_append_left _ h
        · rw [hek] at hcust
          rw [hcust] at hk
          cases hk
      · refine pairedOk_append (pairedOk_of_all_zero hz1) ?_
        by_cases hp : isCustomPress config (⟨Chan.keys, de.code, 1⟩ : Emission)
        · rw [show ((⟨Chan.keys, de.code, 0⟩ : Emission)) =
              (⟨Chan.keys, (⟨Chan.keys, de.code, 1⟩ : Emission).code, 0⟩ : Emission) from rfl,
            pairedOk_cons_pair hp,
            pairedOk_cons_not (not_isCustomPress_of_zero rfl)]
          rfl
        · rw [pairedOk_cons_not hp, pairedOk_cons_not (not_isCustomPress_of_zero rfl)]
          rfl
    · rw [if_neg htap]
      by_cases hone : value = 1
      · rw [if_pos hone]
        constructor
        · intro k hk hin hout
          simp only [RState.withFlag] at hout
          rcases hmods_or k hin hout with h | ⟨hek, _⟩
          · exact h
          · rw [hek] at hcust
            rw [hcust] at hk
            cases hk
        · exact pairedOk_of_all_zero hz1
      · rw [if_neg hone]
        constructor
        · intro k hk hin hout
          rcases hmods_or k hin hout with h | ⟨hek, _⟩
          · exact h
          · rw [hek] at hcust
            rw [hcust] at hk
            cases hk
        · exact pairedOk_of_all_zero hz1
  · rw [if_neg hcust]
    cases hety : de.etype with
    | KEY =>
      constructor
      · intro k hk hin hout
        simp only [RState.withFlag] at hout
        rcases hmods_or k hin hout with h | ⟨hek, hv0⟩
        · exact List.mem_append_left _ h
        · have hde := hwf1 k hek
          rw [hde]
          rw [hv0]
          simp
      · refine pairedOk_append (pairedOk_of_all_zero hz1) ?_
        have hnp : ¬ isCustomPress config (⟨Chan.keys, de.code, de.value⟩ : Emission) := by
          intro hp
          have hevk := hwf2 hety
          rw [hevk] at hcust
          exact hcust hp.2.2
        rw [pairedOk_cons_not hnp]
        rfl
    | RELATIVE =>
      constructor
      · intro k hk hin hout
        simp only [RState.withFlag] at hout
        rcases hmods_or k hin hout with h | ⟨hek, _⟩
        · exact List.mem_append_left _ h
        · have hde := hwf1 k hek
          rw [hde] at hety
          cases hety
      · refine pairedOk_append (pairedOk_of_all_zero hz1) ?_
        have hnp : ¬ isCustomPress config (⟨Chan.axis, de.code, de.value⟩ : Emission) := by
          intro hp
          cases hp.1
        rw [pairedOk_cons_not hnp]
        rfl
    | ABSOLUTE =>
      constructor
      · intro k hk hin hout
        simp only [RState.withFlag] at hout
        rcases hmods_or k hin hout with h | ⟨hek, _⟩
        · exact h
        · have hde := hwf1 k hek
          rw [hde] at hety
          cases hety
      · exact pairedOk_of_all_zero hz1

/-! ## convert_event branch equations -/

theorem convert_event_eq_ruby (config : Config) (chain_only rubyOn : Bool)
    (de : DefaultEvent) (event : Event) (value : Int) (send_zero : Bool) (st : RState)
    (hr : rubyHit config rubyOn event st.modifiers) :
    convert_event config chain_only rubyOn de event value send_zero st = (st, []) := by
  unfold convert_event
  simp only [if_pos hr]

theorem convert_event_eq_nonmapped (config : Config) (chain_only rubyOn : Bool)
    (de : DefaultEvent) (event : Event) (value : Int) (send_zero : Bool) (st : RState)
    (hr : ¬ rubyHit config rubyOn event st.modifiers)
    (hm : alookup config.bindings.remap event = none) :
    convert_event config chain_only rubyOn de event value send_zero st =
      emit_nonmapped_event config de event value st.modifiers st := by
  unfold convert_event
  simp only [if_neg hr, hm]

theorem convert_event_eq_exact (config : Config) (chain_only rubyOn : Bool)
    (de : DefaultEvent) (event : Event) (value : Int) (st : RState)
    {map : List (Chord × List Nat)} {el : List Nat}
    (hr : ¬ rubyHit config rubyOn event st.modifiers)
    (hm : alookup config.bindings.remap event = some map)
    (he : alookup map st.modifiers = some el) :
    convert_event config chain_only rubyOn de event value false st =
      emit_event config el value st.modifiers
        st.modifiers.isEmpty (!st.modifiers.isEmpty) st := by
  rcases hee : emit_event config el value st.modifiers
      st.modifiers.isEmpty (!st.modifiers.isEmpty) st with ⟨sta, outa⟩
  unfold convert_event
  simp only [if_neg hr, hm, he, hee]
  simp

theorem convert_event_eq_exact_zero (config : Config) (chain_only rubyOn : Bool)
    (de : DefaultEvent) (event : Event) (value : Int) (st : RState)
    {map : List (Chord × List Nat)} {el : List Nat}
    (hr : ¬ rubyHit config rubyOn event st.modifiers)
    (hm : alookup config.bindings.remap event = some map)
    (he : alookup map st.modifiers = some el) :
    convert_event config chain_only rubyOn de event value true st =
      ((emit_event config el 0
          (emit_event config el value st.modifiers
            st.modifiers.isEmpty (!st.modifiers.isEmpty) st).1.modifiers
          (emit_event config el value st.modifiers
            st.modifiers.isEmpty (!st.modifiers.isEmpty) st).1.modifiers.isEmpty
          (!(emit_event config el value st.modifiers
            st.modifiers.isEmpty (!st.modifiers.isEmpty) st).1.modifiers.isEmpty)
          (emit_event config el value st.modifiers
            st.modifiers.isEmpty (!st.modifiers.isEmpty) st).1).1,
       (emit_event config el value st.modifiers
          st.modifiers.isEmpty (!st.modifiers.isEmpty) st).2 ++
        (emit_event config el 0
          (emit_event config el value st.modifiers
            st.modifiers.isEmpty (!st.modifiers.isEmpty) st).1.modifiers
          (emit_event config el value st.modifiers
            st.modifiers.isEmpty (!st.modifiers.isEmpty) st).1.modifiers.isEmpty
          (!(emit_event config el value st.modifiers
            st.modifiers.isEmpty (!st.modifiers.isEmpty) st).1.modifiers.isEmpty)
          (emit_event config el value st.modifiers
            st.modifiers.isEmpty (!st.modifiers.isEmpty) st).1).2) := by
  rcases hee : emit_event config el value st.modifiers
      st.modifiers.isEmpty (!st.modifiers.isEmpty) st with ⟨sta, outa⟩
  rcases hee2 : emit_event config el 0 sta.modifiers
      sta.modifiers.isEmpty (!sta.modifiers.isEmpty) sta with ⟨stb, outb⟩
  unfold convert_event
  simp only [if_neg hr, hm, he, hee]
  simp only [hee2]
  simp

theorem convert_event_eq_hold (config : Config) (chain_only rubyOn : Bool)
    (de : DefaultEvent) (event : Event) (value : Int) (send_zero : Bool) (st : RState)
    {map : List (Chord × List Nat)} {el : List Nat}
    (hr : ¬ rubyHit config rubyOn event st.modifiers)
    (hm : alookup config.bindings.remap event = some map)
    (he : alookup map st.modifiers = none)
    (hh : holdEntry map st.modifiers chain_only = some el) :
    convert_event config chain_only rubyOn de event value send_zero st =
      emit_event config el value st.modifiers false false st := by
  unfold convert_event
  simp only [if_neg hr, hm, he, hh]

theorem convert_event_eq_movement (config : Config) (chain_only rubyOn : Bool)
    (de : DefaultEvent) (event : Event) (value : Int) (send_zero : Bool) (st : RState)
    {map : List (Chord × List Nat)} {movement : Relative}
    (hr : ¬ rubyHit config rubyOn event st.modifiers)
    (hm : alookup config.bindings.remap event = some map)
    (he : alookup map st.modifiers = none)
    (hh : holdEntry map st.modifiers chain_only = none)
    (hmv : (alookup config.bindings.movements event).bind
      (fun m => alookup m st.modifiers) = some movement) :
    convert_event config chain_only rubyOn de event value send_zero st =
      (if value ≤ 1 then (emit_movement movement value st, []) else (st, [])) := by
  unfold convert_event
  simp only [if_neg hr, hm, he, hh, hmv]

theorem convert_event_eq_bare (config : Config) (chain_only rubyOn : Bool)
    (de : DefaultEvent) (event : Event) (value : Int) (st : RState)
    {map : List (Chord × List Nat)} {el : List Nat}
    (hr : ¬ rubyHit config rubyOn event st.modifiers)
    (hm : alookup config.bindings.remap event = some map)
    (he : alookup map st.modifiers = none)
    (hh : holdEntry map st.modifiers chain_only = none)
    (hmv : (alookup config.bindings.movements event).bind
      (fun m => alookup m st.modifiers) = none)
    (hb : alookup map [] = some el) :
    convert_event config chain_only rubyOn de event value false st =
      emit_event config el value st.modifiers true false st := by
  rcases hee : emit_event config el value st.modifiers true false st with ⟨sta, outa⟩
  unfold convert_event
  simp only [if_neg hr, hm, he, hh, hmv, hb, hee]
  simp

theorem convert_event_eq_bare_zero (config : Config) (chain_only rubyOn : Bool)
    (de : DefaultEvent) (event : Event) (value : Int) (st : RState)
    {map : List (Chord × List Nat)} {el : List Nat}
    (hr : ¬ rubyHit config rubyOn event st.modifiers)
    (hm : alookup config.bindings.remap event = some map)
    (he : alookup map st.modifiers = none)
    (hh : holdEntry map st.modifiers chain_only = none)
    (hmv : (alookup config.bindings.movements event).bind
      (fun m => alookup m st.modifiers) = none)
    (hb : alookup map [] = some el) :
    convert_event config chain_only rubyOn de event value true st =
      ((emit_event config el 0
          (emit_event config el value st.modifiers true false st).1.modifiers true false
          (emit_event config el value st.modifiers true false st).1).1,
       (emit_event config el value st.modifiers true false st).2 ++
        (emit_event config el 0
          (emit_event config el value st.modifiers true false st).1.modifiers true false
          (emit_event config el value st.modifiers true false st).1).2) := by
  rcases hee : emit_event config el value st.modifiers true false st with ⟨sta, outa⟩
  rcases hee2 : emit_event config el 0 sta.modifiers true false sta with ⟨stb, outb⟩
  unfold convert_event
  simp only [if_neg hr, hm, he, hh, hmv, hb, hee]
  simp only [hee2]
  simp

theorem convert_event_eq_fallthrough (config : Config) (chain_only rubyOn : Bool)
    (de : DefaultEvent) (event : Event) (value : Int) (send_zero : Bool) (st : RState)
    {map : List (Chord × List Nat)}
    (hr : ¬ rubyHit config rubyOn event st.modifiers)
    (hm : alookup config.bindings.remap event = some map)
    (he : alookup map st.modifiers = none)
    (hh : holdEntry map st.modifiers chain_only = none)
    (hmv : (alookup config.bindings.movements event).bind
      (fun m => alookup m st.modifiers) = none)
    (hb : alookup map [] = none) :
    convert_event config chain_only rubyOn de event value send_zero st =
      emit_nonmapped_event config de event value st.modifiers st := by
  unfold convert_event
  simp only [if_neg hr, hm, he, hh, hmv, hb]

theorem emit_movement_modifiers (movement : Relative) (value : Int) (st : RState) :
    (emit_movement movement value st).modifiers = st.modifiers := by
  rcases movement with c | sc
  · cases c <;> rfl
  · cases sc <;> rfl

/-- C1: Stuck-key freedom. For every single resolution step
(convert_event) under any active Config and runtime state: (a) whenever
a non-custom modifier-classified key is a member of the chord before the
step and not after it, the step's own output contains a value-0 emission
of that key (via the released_keys bookkeeping of emit_event or
emit_nonmapped_event); and (b) every value-1 emission of a custom
modifier key is immediately followed by its value-0 emission (the
synthetic tap pulse), so no modifier-classified key emitted with value 1
is left down in the virtual device once it leaves the active chord. -/
theorem claim_C1_stuck_key_freedom (config : Config) (chain_only rubyOn : Bool)
    (de : DefaultEvent) (event : Event) (value : Int) (send_zero : Bool) (st : RState)
    (hwf1 : ∀ c, event = Event.key c → de = ⟨EType.KEY, c, value⟩)
    (hwf2 : de.etype = EType.KEY → event = Event.key de.code) :
    (∀ k : Nat, config.mapped_modifiers.custom.contains (Event.key k) = false →
      Event.key k ∈ st.modifiers →
      Event.key k ∉
        (convert_event config chain_only rubyOn de event value send_zero st).1.modifiers →
      (⟨Chan.keys, k, 0⟩ : Emission) ∈
        (convert_event config chain_only rubyOn de event value send_zero st).2) ∧
    pairedOk config
      (convert_event config chain_only rubyOn de event value send_zero st).2 = true := by
  by_cases hr : rubyHit config rubyOn event st.modifiers
  · rw [convert_event_eq_ruby config chain_only rubyOn de event value send_zero st hr]
    exact ⟨fun k _ hin hout => absurd hin hout, rfl⟩
  · cases hm : alookup config.bindings.remap event with
    | none =>
      rw [convert_event_eq_nonmapped config chain_only rubyOn de event value send_zero
        st hr hm]
      exact emit_nonmapped_spec config de event value st.modifiers st hwf1 hwf2
    | some map =>
      cases he : alookup map st.modifiers with
      | some el =>
        cases send_zero with
        | false =>
          rw [convert_event_eq_exact config chain_only rubyOn de event value st hr hm he]
          exact ⟨fun k hk hin hout =>
              emit_event_release config el value st.modifiers
                st.modifiers.isEmpty (!st.modifiers.isEmpty) st k hk hin hout,
            emit_event_pairedOk config el value st.modifiers
              st.modifiers.isEmpty (!st.modifiers.isEmpty) st⟩
        | true =>
          rw [convert_event_eq_exact_zero config chain_only rubyOn de event value st
            hr hm he]
          set E1 := emit_event config el value st.modifiers
            st.modifiers.isEmpty (!st.modifiers.isEmpty) st with hE1
          set E2 := emit_event config el 0 E1.1.modifiers
            E1.1.modifiers.isEmpty (!E1.1.modifiers.isEmpty) E1.1 with hE2
          constructor
          · intro k hk hin hout
            simp only at hout ⊢
            by_cases hmid : Event.key k ∈ E1.1.modifiers
            · exact List.mem_append_right _
                (emit_event_release config el 0 E1.1.modifiers
                  E1.1.modifiers.isEmpty (!E1.1.modifiers.isEmpty) E1.1 k hk hmid hout)
            · exact List.mem_append_left _
                (emit_event_release config el value st.modifiers
                  st.modifiers.isEmpty (!st.modifiers.isEmpty) st k hk hin hmid)
          · exact pairedOk_append
              (emit_event_pairedOk config el value st.modifiers
                st.modifiers.isEmpty (!st.modifiers.isEmpty) st)
              (emit_event_pairedOk config el 0 E1.1.modifiers
                E1.1.modifiers.isEmpty (!E1.1.modifiers.isEmpty) E1.1)
      | none =>
        cases hh : holdEntry map st.modifiers chain_only with
        | some el =>
          rw [convert_event_eq_hold config chain_only rubyOn de event value send_zero st
            hr hm he hh]
          exact ⟨fun k hk hin hout =>
              emit_event_release config el value st.modifiers false false st k hk hin hout,
            emit_event_pairedOk config el value st.modifiers false false st⟩
        | none =>
          cases hmv : (alookup config.bindings.movements event).bind
              (fun m => alookup m st.modifiers) with
          | some movement =>
            rw [convert_event_eq_movement config chain_only rubyOn de event value
              send_zero st hr hm he hh hmv]
            by_cases hv : value ≤ 1
            · rw [if_pos hv]
              refine ⟨?_, rfl⟩
              intro k _ hin hout
              rw [emit_movement_modifiers] at hout
              exact absurd hin hout
            · rw [if_neg hv]
              exact ⟨fun k _ hin hout => absurd hin hout, rfl⟩
          | none =>
            cases hb : alookup map [] with
            | some el =>
              cases send_zero with
              | false =>
                rw [convert_event_eq_bare config chain_only rubyOn de event value st
                  hr hm he hh hmv hb]
                exact ⟨fun k hk hin hout =>
                    emit_event_release config el value st.modifiers true false st
                      k hk hin hout,
                  emit_event_pairedOk config el value st.modifiers true false st⟩
              | true =>
                rw [convert_event_eq_bare_zero config chain_only rubyOn de event value st
                  hr hm he hh hmv hb]
                set E1 := emit_event config el value st.modifiers true false st with hE1
                constructor
                · intro k hk hin hout
                  simp only at hout ⊢
                  by_cases hmid : Event.key k ∈ E1.1.modifiers
                  · exact List.mem_append_right _
                      (emit_event_release config el 0 E1.1.modifiers true false E1.1
                        k hk hmid hout)
                  · exact List.mem_append_left _
                      (emit_event_release config el value st.modifiers true false st
                        k hk hin hmid)
                · exact pairedOk_append
                    (emit_event_pairedOk config el value st.modifiers true false st)
                    (emit_event_pairedOk config el 0 E1.1.modifiers true false E1.1)
            | none =>
              rw [convert_event_eq_fallthrough config chain_only rubyOn de event value
                send_zero st hr hm he hh hmv hb]
              exact emit_nonmapped_spec config de event value st.modifiers st hwf1 hwf2

/-! ## Claim theorems -/

/-- C9: Chord canonical form. toggle_modifiers keeps the chord sorted
and deduplicated after every operation (insert on value 1, remove on
value 0, no-op otherwise), and for any two insertion orders of the same
set of modifier events the resulting chords are equal. -/
theorem claim_C9_chord_canonical (config : Config) (c : Chord) (hc : Canonical c) :
    (∀ (m : Event) (v : Int), Canonical (toggle_modifiers config m v c)) ∧
    (∀ (l l' : List Event), List.Perm l l' →
      insertAll config c l = insertAll config c l') := by
  constructor
  · intro m v
    exact canonical_toggle config m v hc
  · intro l l' hperm
    refine canonical_ext (canonical_insertAll config hc l)
      (canonical_insertAll config hc l') ?_
    intro a
    rw [mem_insertAll, mem_insertAll, hperm.mem_iff]

/-- Small concrete config for witnesses: LEFTSHIFT (42) and LEFTCTRL
(29) are the recognized modifiers, no bindings. -/
def wcfg : Config :=
  ⟨⟨[], [], []⟩, ⟨[Event.key 42, Event.key 29], [], [Event.key 29, Event.key 42]⟩⟩

theorem claim_C9_chord_canonical_witness :
    Canonical ([] : Chord) ∧
    ((∀ (m : Event) (v : Int), Canonical (toggle_modifiers wcfg m v [])) ∧
     (∀ (l l' : List Event), List.Perm l l' →
       insertAll wcfg [] l = insertAll wcfg [] l')) :=
  ⟨⟨by simp, by simp⟩, claim_C9_chord_canonical wcfg [] ⟨by simp, by simp⟩⟩

/-- C2: Resolution precedence with emission flags. With both an exact
chord entry (chordAB ↦ X) and a bare-key entry ([] ↦ Y) present for the
same trigger, a press resolved under live chord chordAB emits X with
release_keys = chordAB.isEmpty = false and ignore_modifiers =
!chordAB.isEmpty = true, and a press resolved under the empty chord
emits Y with release_keys = true and ignore_modifiers = false. -/
theorem claim_C2_resolution_precedence (config : Config) (chain_only rubyOn : Bool)
    (de : DefaultEvent) (T : Event) (map : List (Chord × List Nat))
    (chordAB : Chord) (X Y : List Nat) (st st0 : RState)
    (hru : alookup config.bindings.rubies T = none)
    (hm : alookup config.bindings.remap T = some map)
    (hX : alookup map chordAB = some X)
    (hY : alookup map [] = some Y)
    (hne : chordAB ≠ [])
    (hst : st.modifiers = chordAB)
    (hst0 : st0.modifiers = []) :
    convert_event config chain_only rubyOn de T 1 false st =
      emit_event config X 1 chordAB false true st ∧
    convert_event config chain_only rubyOn de T 1 false st0 =
      emit_event config Y 1 [] true false st0 := by
  have hr : ¬ rubyHit config rubyOn T st.modifiers := by
    simp [rubyHit, hru]
  have hr0 : ¬ rubyHit config rubyOn T st0.modifiers := by
    simp [rubyHit, hru]
  have hie : chordAB.isEmpty = false := by
    simp [hne]
  constructor
  · have heq := convert_event_eq_exact config chain_only rubyOn de T 1 st hr hm
      (by rw [hst]; exact hX)
    rw [heq, hst, hie]
    rfl
  · have heq := convert_event_eq_exact config chain_only rubyOn de T 1 st0 hr0 hm
      (by rw [hst0]; exact hY)
    rw [heq, hst0]
    rfl

/-- Concrete two-entry binding table for the C2 witness: trigger BTN_SOUTH
(304), exact chord [LEFTCTRL, LEFTSHIFT] ↦ [KEY_X (45)], bare ↦ [KEY_Y (21)]. -/
def cfg2w : Config :=
  ⟨⟨[(Event.key 304, [([Event.key 29, Event.key 42], [45]), ([], [21])])], [], []⟩,
   ⟨[Event.key 42, Event.key 29], [], [Event.key 29, Event.key 42]⟩⟩

def st2w : RState := ⟨[Event.key 29, Event.key 42], true, (0, 0), (0, 0)⟩

def st2w0 : RState := ⟨[], true, (0, 0), (0, 0)⟩

theorem claim_C2_resolution_precedence_witness :
    convert_event cfg2w true false ⟨EType.KEY, 304, 1⟩ (Event.key 304) 1 false st2w =
      emit_event cfg2w [45] 1 [Event.key 29, Event.key 42] false true st2w ∧
    convert_event cfg2w true false ⟨EType.KEY, 304, 1⟩ (Event.key 304) 1 false st2w0 =
      emit_event cfg2w [21] 1 [] true false st2w0 :=
  claim_C2_resolution_precedence cfg2w true false ⟨EType.KEY, 304, 1⟩ (Event.key 304)
    [([Event.key 29, Event.key 42], [45]), ([], [21])]
    [Event.key 29, Event.key 42] [45] [21] st2w st2w0
    rfl rfl (by decide) (by decide) (by decide) rfl rfl

/-- Custom-modifier press via the nonmapped path: no output of its own
(only released-keys value-0 bookkeeping) and the flag is cleared. -/
theorem emit_nonmapped_custom_press (config : Config) (de : DefaultEvent)
    (event : Event) (mods : Chord) (st : RState)
    (hcu : config.mapped_modifiers.custom.contains event = true) :
    (emit_nonmapped_event config de event 1 mods st).1.modifier_was_activated = false ∧
    (∀ e ∈ (emit_nonmapped_event config de event 1 mods st).2, e.value = (0 : Int)) := by
  have hphase : ∃ st1 out1,
      (if config.mapped_modifiers.all.contains event = true ∧ (1 : Int) ≠ 2 then
        releaseLoopNonmapped config (released_keys config mods) st
      else (st, [])) = (st1, out1) ∧
      (∀ e ∈ out1, e.value = (0 : Int)) := by
    by_cases hrel : config.mapped_modifiers.all.contains event = true ∧ (1 : Int) ≠ 2
    · exact ⟨_, _, by rw [if_pos hrel],
        (releaseLoopNonmapped_spec config (released_keys config mods) st).1⟩
    · exact ⟨st, [], by rw [if_neg hrel], by simp⟩
  obtain ⟨st1, out1, hP, hz1⟩ := hphase
  have hred : emit_nonmapped_event config de event 1 mods st =
      ((st1.withMods (toggle_modifiers config event 1 st1.modifiers)).withFlag false,
        out1) := by
    unfold emit_nonmapped_event
    rw [hP]
    simp only [if_pos hcu]
    rw [if_neg (fun h => absurd h.1 (by norm_num))]
    simp
  rw [hred]
  exact ⟨rfl, hz1⟩

/-- Custom-modifier release via the nonmapped path with the flag clear:
the output ends in the synthetic press+release pulse of the physical
event's own code, preceded only by value-0 bookkeeping, and the flag is
set. -/
theorem emit_nonmapped_custom_tap (config : Config) (de : DefaultEvent)
    (event : Event) (mods : Chord) (st : RState)
    (hcu : config.mapped_modifiers.custom.contains event = true)
    (hflag : st.modifier_was_activated = false) :
    ∃ pre, (∀ e ∈ pre, e.value = (0 : Int)) ∧
      (emit_nonmapped_event config de event 0 mods st).2 =
        pre ++ [⟨Chan.keys, de.code, 1⟩, ⟨Chan.keys, de.code, 0⟩] ∧
      (emit_nonmapped_event config de event 0 mods st).1.modifier_was_activated = true := by
  have hphase : ∃ st1 out1,
      (if config.mapped_modifiers.all.contains event = true ∧ (0 : Int) ≠ 2 then
        releaseLoopNonmapped config (released_keys config mods) st
      else (st, [])) = (st1, out1) ∧
      (∀ e ∈ out1, e.value = (0 : Int)) ∧
      st1.modifier_was_activated = st.modifier_was_activated := by
    by_cases hrel : config.mapped_modifiers.all.contains event = true ∧ (0 : Int) ≠ 2
    · exact ⟨_, _, by rw [if_pos hrel],
        (releaseLoopNonmapped_spec config (released_keys config mods) st).1,
        (releaseLoopNonmapped_spec config (released_keys config mods) st).2.1⟩
    · exact ⟨st, [], by rw [if_neg hrel], by simp, rfl⟩
  obtain ⟨st1, out1, hP, hz1, hfl1⟩ := hphase
  have hflag1 : (st1.withMods
      (toggle_modifiers config event 0 st1.modifiers)).modifier_was_activated = false := by
    simp only [RState.withMods]
    rw [hfl1, hflag]
  have hred : emit_nonmapped_event config de event 0 mods st =
      (((st1.withMods (toggle_modifiers config event 0 st1.modifiers)).withFlag true),
        out1 ++ [⟨Chan.keys, de.code, 1⟩, ⟨Chan.keys, de.code, 0⟩]) := by
    unfold emit_nonmapped_event
    rw [hP]
    simp only [if_pos hcu]
    rw [if_pos ⟨by norm_num, hflag1⟩]
  rw [hred]
  exact ⟨out1, hz1, rfl, rfl⟩

/-- C10: Tap-vs-combo. A press then release of a key classified as a
custom modifier, routed through the passthrough path (no remap or ruby
binding for it), with nothing emitted in between: the press emits
nothing but value-0 bookkeeping and clears the flag, the release
appends exactly one synthetic press+release pair of the key's own code,
the flag ends true, and the combined output contains exactly one
value-1 emission of that key. -/
theorem claim_C10_tap_vs_combo (config : Config) (chain_only rubyOn : Bool)
    (M : Nat) (st : RState)
    (hcu : config.mapped_modifiers.custom.contains (Event.key M) = true)
    (hm : alookup config.bindings.remap (Event.key M) = none)
    (hru : alookup config.bindings.rubies (Event.key M) = none) :
    ∃ pre,
      (∀ e ∈ (convert_event config chain_only rubyOn ⟨EType.KEY, M, 1⟩
          (Event.key M) 1 false st).2, e.value = (0 : Int)) ∧
      (∀ e ∈ pre, e.value = (0 : Int)) ∧
      (convert_event config chain_only rubyOn ⟨EType.KEY, M, 0⟩ (Event.key M) 0 false
        (convert_event config chain_only rubyOn ⟨EType.KEY, M, 1⟩
          (Event.key M) 1 false st).1).2 =
        pre ++ [⟨Chan.keys, M, 1⟩, ⟨Chan.keys, M, 0⟩] ∧
      (convert_event config chain_only rubyOn ⟨EType.KEY, M, 0⟩ (Event.key M) 0 false
        (convert_event config chain_only rubyOn ⟨EType.KEY, M, 1⟩
          (Event.key M) 1 false st).1).1.modifier_was_activated = true ∧
      ((convert_event config chain_only rubyOn ⟨EType.KEY, M, 1⟩
          (Event.key M) 1 false st).2 ++
        (convert_event config chain_only rubyOn ⟨EType.KEY, M, 0⟩ (Event.key M) 0 false
          (convert_event config chain_only rubyOn ⟨EType.KEY, M, 1⟩
            (Event.key M) 1 false st).1).2).count ⟨Chan.keys, M, 1⟩ = 1 := by
  have hr1 : ¬ rubyHit config rubyOn (Event.key M) st.modifiers := by
    simp [rubyHit, hru]
  have hpeq := convert_event_eq_nonmapped config chain_only rubyOn ⟨EType.KEY, M, 1⟩
    (Event.key M) 1 false st hr1 hm
  obtain ⟨hpflag, hpz⟩ := emit_nonmapped_custom_press config ⟨EType.KEY, M, 1⟩
    (Event.key M) st.modifiers st hcu
  set pst := (convert_event config chain_only rubyOn ⟨EType.KEY, M, 1⟩
    (Event.key M) 1 false st).1 with hpst
  have hr2 : ¬ rubyHit config rubyOn (Event.key M) pst.modifiers := by
    simp [rubyHit, hru]
  have hreq := convert_event_eq_nonmapped config chain_only rubyOn ⟨EType.KEY, M, 0⟩
    (Event.key M) 0 false pst hr2 hm
  have hpflag' : pst.modifier_was_activated = false := by
    rw [hpst, hpeq]
    exact hpflag
  obtain ⟨pre, hprez, hrout, hrflag⟩ := emit_nonmapped_custom_tap config
    ⟨EType.KEY, M, 0⟩ (Event.key M) pst.modifiers pst hcu hpflag'
  refine ⟨pre, ?_, hprez, ?_, ?_, ?_⟩
  · rw [hpeq]
    exact hpz
  · rw [hreq]
    exact hrout
  · rw [hreq]
    exact hrflag
  · rw [hpeq, hreq, hrout]
    rw [List.count_append, List.count_append]
    have hz0 : ∀ (l : List Emission), (∀ e ∈ l, e.value = (0 : Int)) →
        l.count (⟨Chan.keys, M, 1⟩ : Emission) = 0 := by
      intro l hl
      rw [List.count_eq_zero]
      intro hmem
      have := hl _ hmem
      norm_num at this
    rw [hz0 _ hpz, hz0 _ hprez]
    simp [List.count_cons]

/-- Config for the C10 witness: KEY_CAPSLOCK (58) is a custom modifier,
nothing is bound. -/
def cfg10 : Config :=
  ⟨⟨[], [], []⟩, ⟨[Event.key 42], [Event.key 58], [Event.key 42, Event.key 58]⟩⟩

def st10 : RState := ⟨[], true, (0, 0), (0, 0)⟩

theorem claim_C10_tap_vs_combo_witness :
    ∃ pre,
      (∀ e ∈ (convert_event cfg10 true false ⟨EType.KEY, 58, 1⟩
          (Event.key 58) 1 false st10).2, e.value = (0 : Int)) ∧
      (∀ e ∈ pre, e.value = (0 : Int)) ∧
      (convert_event cfg10 true false ⟨EType.KEY, 58, 0⟩ (Event.key 58) 0 false
        (convert_event cfg10 true false ⟨EType.KEY, 58, 1⟩
          (Event.key 58) 1 false st10).1).2 =
        pre ++ [⟨Chan.keys, 58, 1⟩, ⟨Chan.keys, 58, 0⟩] ∧
      (convert_event cfg10 true false ⟨EType.KEY, 58, 0⟩ (Event.key 58) 0 false
        (convert_event cfg10 true false ⟨EType.KEY, 58, 1⟩
          (Event.key 58) 1 false st10).1).1.modifier_was_activated = true ∧
      ((convert_event cfg10 true false ⟨EType.KEY, 58, 1⟩
          (Event.key 58) 1 false st10).2 ++
        (convert_event cfg10 true false ⟨EType.KEY, 58, 0⟩ (Event.key 58) 0 false
          (convert_event cfg10 true false ⟨EType.KEY, 58, 1⟩
            (Event.key 58) 1 false st10).1).2).count ⟨Chan.keys, 58, 1⟩ = 1 :=
  claim_C10_tap_vs_combo cfg10 true false 58 st10 (by decide) rfl rfl

/-- Config and state for the C1 witness: LEFTSHIFT (42) is a tracked
(non-custom) modifier and is in the chord; its physical release removes
it from the chord and the step emits its value-0 release. -/
def cfg1w : Config :=
  ⟨⟨[], [], []⟩, ⟨[Event.key 42], [], [Event.key 42]⟩⟩

def st1w : RState := ⟨[Event.key 42], true, (0, 0), (0, 0)⟩

theorem claim_C1_stuck_key_freedom_witness :
    ((∀ k : Nat, cfg1w.mapped_modifiers.custom.contains (Event.key k) = false →
      Event.key k ∈ st1w.modifiers →
      Event.key k ∉
        (convert_event cfg1w true false ⟨EType.KEY, 42, 0⟩
          (Event.key 42) 0 false st1w).1.modifiers →
      (⟨Chan.keys, k, 0⟩ : Emission) ∈
        (convert_event cfg1w true false ⟨EType.KEY, 42, 0⟩
          (Event.key 42) 0 false st1w).2) ∧
    pairedOk cfg1w
      (convert_event cfg1w true false ⟨EType.KEY, 42, 0⟩
        (Event.key 42) 0 false st1w).2 = true) ∧
    (⟨Chan.keys, 42, 0⟩ : Emission) ∈
      (convert_event cfg1w true false ⟨EType.KEY, 42, 0⟩
        (Event.key 42) 0 false st1w).2 :=
  ⟨claim_C1_stuck_key_freedom cfg1w true false ⟨EType.KEY, 42, 0⟩ (Event.key 42) 0
      false st1w
      (fun c hc => by injection hc with h; rw [h])
      (fun _ => rfl),
   (claim_C1_stuck_key_freedom cfg1w true false ⟨EType.KEY, 42, 0⟩ (Event.key 42) 0
      false st1w
      (fun c hc => by injection hc with h; rw [h])
      (fun _ => rfl)).1 42 rfl (by decide) (by decide)⟩

/-- C5 counterexample: the digitization is not odd on the centered
input, and the division is not ceiling-toward-positive-infinity.  With
the default deadzone 5 (8-bit source), raw 138 centers to 2000 and
digitizes to 1, while raw 118 centers to -2000 and digitizes to 0, not
-1. -/
theorem claim_C5_not_odd_counterexample :
    get_axis_value false 5 138 = 1 ∧
    get_axis_value false 5 118 = 0 ∧
    digitize 5 2000 = 1 ∧
    digitize 5 (-2000) = 0 ∧
    digitize 5 (-2000) ≠ -(digitize 5 2000) := by
  refine ⟨?_, ?_, ?_, ?_, ?_⟩ <;> decide

/-- C5 amended: deadzone clamping holds as claimed, but nonzero values
are computed with Rust's truncation-toward-zero division (Int.tdiv) of
(centered + 1999) / 2000, and for every centered magnitude outside the
deadzone the digitization fails to be odd: digitize(-x) is always
strictly greater than -digitize(x). -/
theorem claim_C5_stick_digitization (d x : Int) (hd : 0 ≤ d) :
    (|x| ≤ d * 200 → digitize d x = 0) ∧
    (|x| > d * 200 → digitize d x = Int.tdiv (x + 1999) 2000) ∧
    (x > d * 200 → digitize d (-x) ≠ -digitize d x) ∧
    (∀ v : Int, get_axis_value false d v = digitize d ((v - 128) * 200)) ∧
    (∀ v : Int, get_axis_value true d v = digitize d v) := by
  have hbridge : ∀ a : Int, Int.tdiv a 2000 =
      if 0 ≤ a then a / 2000 else -((-a) / 2000) := by
    intro a
    split
    · exact Int.tdiv_eq_ediv (by assumption) (by norm_num)
    · rw [show a = -(-a) by ring, Int.neg_tdiv,
        Int.tdiv_eq_ediv (by omega) (by norm_num)]
      simp
  refine ⟨?_, ?_, ?_, fun v => rfl, fun v => rfl⟩
  · intro h
    unfold digitize
    rw [if_pos h]
  · intro h
    unfold digitize
    rw [if_neg (not_le.mpr h), show x + 2000 - 1 = x + 1999 from by ring]
  · intro hx
    have hd200 : 0 ≤ d * 200 := by positivity
    have hx1 : 1 ≤ x := by omega
    have habs : |x| = x := abs_of_nonneg (by omega)
    have habsneg : |(-x)| = x := by rw [abs_neg, habs]
    unfold digitize
    rw [if_neg (by rw [habsneg]; exact not_le.mpr hx),
      if_neg (by rw [habs]; exact not_le.mpr hx)]
    rw [hbridge, hbridge]
    split_ifs <;> omega

theorem claim_C5_stick_digitization_witness :
    (0 : Int) ≤ 5 ∧
    ((|(2000 : Int)| ≤ 5 * 200 → digitize 5 2000 = 0) ∧
     (|(2000 : Int)| > 5 * 200 → digitize 5 2000 = Int.tdiv (2000 + 1999) 2000) ∧
     ((2000 : Int) > 5 * 200 → digitize 5 (-2000) ≠ -(digitize 5 2000)) ∧
     (∀ v : Int, get_axis_value false 5 v = digitize 5 ((v - 128) * 200)) ∧
     (∀ v : Int, get_axis_value true 5 v = digitize 5 v)) :=
  ⟨by norm_num, claim_C5_stick_digitization 5 2000 (by norm_num)⟩

/-- C6 counterexample: a zero-valued ABS_Z sample while the tracked
trigger state is released does not produce a release and is not
ignored; the (_, 0) match arm fires and emits a press. -/
theorem claim_C6_trigger_counterexample :
    trigger_axis_step 0 0 = (1, some (Event.axis Axis.BTN_TL2, 1)) ∧
    trigger_axis_step 0 0 ≠ (0, some (Event.axis Axis.BTN_TL2, 0)) ∧
    (trigger_axis_step 0 0).2 ≠ none := by
  refine ⟨?_, ?_, ?_⟩ <;> decide

/-- C6 amended: the ABS_Z handler emits edge events as follows: any
sample (zero included) while the tracked state is released produces a
value-1 press and sets the state; a zero sample while pressed produces
a value-0 release; a nonzero sample while pressed produces nothing. -/
theorem claim_C6_trigger_behavior (v s : Int) :
    (s = 0 → trigger_axis_step v s = (1, some (Event.axis Axis.BTN_TL2, 1))) ∧
    (s = 1 ∧ v = 0 → trigger_axis_step v s = (0, some (Event.axis Axis.BTN_TL2, 0))) ∧
    (s = 1 ∧ v ≠ 0 → trigger_axis_step v s = (s, none)) := by
  refine ⟨?_, ?_, ?_⟩
  · intro hs
    subst hs
    unfold trigger_axis_step
    rw [if_neg (by norm_num), if_pos rfl]
  · rintro ⟨hs, hv⟩
    subst hs hv
    rfl
  · rintro ⟨hs, hv⟩
    subst hs
    unfold trigger_axis_step
    rw [if_neg (by omega), if_neg (by norm_num)]

theorem claim_C6_trigger_behavior_witness :
    trigger_axis_step 0 1 = (0, some (Event.axis Axis.BTN_TL2, 0)) ∧
    trigger_axis_step 7 1 = (1, none) ∧
    trigger_axis_step 7 0 = (1, some (Event.axis Axis.BTN_TL2, 1)) :=
  ⟨(claim_C6_trigger_behavior 0 1).2.1 ⟨rfl, rfl⟩,
   (claim_C6_trigger_behavior 7 1).2.2 ⟨rfl, by norm_num⟩,
   (claim_C6_trigger_behavior 7 0).1 rfl⟩

theorem change_loop_found (config : List Associations) (w : Client) (fuel al : Nat)
    (h : layoutMatches config w (nextLayout al) = true) :
    change_active_layout_loop config w (fuel + 1) al = some (nextLayout al) := by
  rw [change_active_layout_loop]
  simp only [h, if_true]

theorem change_loop_notfound (config : List Associations) (w : Client) (fuel al : Nat)
    (h : layoutMatches config w (nextLayout al) = false) :
    change_active_layout_loop config w (fuel + 1) al =
      change_active_layout_loop config w fuel (nextLayout al) := by
  rw [change_active_layout_loop]
  simp only [h]
  rw [if_neg (by simp)]

theorem nextLayout_le3 (al : Nat) (h : al ≤ 3) : nextLayout al ≤ 3 := by
  unfold nextLayout
  split <;> omega

theorem layoutMatches_find (config : List Associations) (w : Client) (r : Nat)
    (h : layoutMatches config w r = true) :
    (find_config config ⟨w, r⟩).isSome = true := by
  rw [layoutMatches, List.any_eq_true] at h
  rcases h with ⟨x, hx, hdec⟩
  rw [decide_eq_true_eq] at hdec
  rw [find_config, List.find?_isSome]
  refine ⟨x, hx, ?_⟩
  rw [decide_eq_true_eq]
  rcases x with ⟨xc, xl⟩
  simp only at hdec
  rw [hdec.1, hdec.2]

/-- The configuration set of the C7 counterexample: the device's default
Context (default window class, layout 0) and one Context for class "x"
at layout 7, outside the 0..3 slots the loop can ever visit. -/
def configs7 : List Associations :=
  [⟨Client.Default, 0⟩, ⟨Client.Class "x", 7⟩]

theorem configs7_no_match (l : Nat) (hl : l ≤ 3) :
    layoutMatches configs7 (Client.Class "x") l = false := by
  rw [layoutMatches, configs7]
  simp only [List.any_cons, List.any_nil, Bool.or_false, Bool.or_eq_false_iff,
    decide_eq_false_iff_not]
  constructor
  · rintro ⟨_, h⟩
    cases h
  · rintro ⟨h, _⟩
    omega

theorem configs7_loop_none : ∀ (fuel al : Nat), al ≤ 3 →
    change_active_layout_loop configs7 (Client.Class "x") fuel al = none := by
  intro fuel
  induction fuel with
  | zero => intro al _; rfl
  | succ n ih =>
    intro al hal
    rw [change_loop_notfound configs7 (Client.Class "x") n al
      (configs7_no_match (nextLayout al) (nextLayout_le3 al hal))]
    exact ih (nextLayout al) (nextLayout_le3 al hal)

/-- C7 counterexample: with the default Context present and the
active-window classification Class "x" (which the resolver can return,
since a Context with that window class exists), the layout-advance loop
of change_active_layout never breaks from the initial layout 0: no fuel
makes it return, because the only Context for class "x" sits at layout
7 and the loop never falls back to the default Context. -/
theorem claim_C7_counterexample :
    (⟨Client.Default, 0⟩ : Associations) ∈ configs7 ∧
    (∃ a ∈ configs7, a.client = Client.Class "x") ∧
    ¬ ∃ (fuel r : Nat),
      change_active_layout_loop configs7 (Client.Class "x") fuel 0 = some r := by
  refine ⟨by simp [configs7], ⟨⟨Client.Class "x", 7⟩, by simp [configs7], rfl⟩, ?_⟩
  rintro ⟨fuel, r, h⟩
  rw [configs7_loop_none fuel 0 (by norm_num)] at h
  cases h

/-- C7 amended: the retry loop terminates precisely when the resolved
window class has a Context at some layout in 0..3; in that case four
iterations from any layout in 0..3 converge on a matching Context, and
update_config's lookup at the converged pair succeeds.  (When the
resolver returns the default classification, the device's default
Context at layout 0 satisfies the hypothesis.) -/
theorem claim_C7_layout_convergence (config : List Associations) (w : Client)
    (al : Nat) (hal : al ≤ 3)
    (hex : ∃ l, l ≤ 3 ∧ layoutMatches config w l = true) :
    ∃ r, change_active_layout_loop config w 4 al = some r ∧ r ≤ 3 ∧
      layoutMatches config w r = true ∧ (find_config config ⟨w, r⟩).isSome = true := by
  rcases hex with ⟨l, hl, hfl⟩
  have h1le : nextLayout al ≤ 3 := nextLayout_le3 al hal
  have h2le : nextLayout (nextLayout al) ≤ 3 := nextLayout_le3 _ h1le
  have h3le : nextLayout (nextLayout (nextLayout al)) ≤ 3 := nextLayout_le3 _ h2le
  have h4le : nextLayout (nextLayout (nextLayout (nextLayout al))) ≤ 3 :=
    nextLayout_le3 _ h3le
  have hcycle : ∀ (a m : Nat), a ≤ 3 → m ≤ 3 →
      m = nextLayout a ∨ m = nextLayout (nextLayout a) ∨
      m = nextLayout (nextLayout (nextLayout a)) ∨
      m = nextLayout (nextLayout (nextLayout (nextLayout a))) := by
    intro a m ha hm
    interval_cases a <;> interval_cases m <;> decide
  by_cases h1 : layoutMatches config w (nextLayout al) = true
  · exact ⟨nextLayout al, change_loop_found config w 3 al h1, h1le, h1,
      layoutMatches_find config w _ h1⟩
  · rw [show (4 : Nat) = 3 + 1 from rfl,
      change_loop_notfound config w 3 al (by simpa using h1)]
    by_cases h2 : layoutMatches config w (nextLayout (nextLayout al)) = true
    · exact ⟨_, change_loop_found config w 2 (nextLayout al) h2, h2le, h2,
        layoutMatches_find config w _ h2⟩
    · rw [show (3 : Nat) = 2 + 1 from rfl,
        change_loop_notfound config w 2 (nextLayout al) (by simpa using h2)]
      by_cases h3 : layoutMatches config w
          (nextLayout (nextLayout (nextLayout al))) = true
      · exact ⟨_, change_loop_found config w 1 (nextLayout (nextLayout al)) h3,
          h3le, h3, layoutMatches_find config w _ h3⟩
      · rw [show (2 : Nat) = 1 + 1 from rfl,
          change_loop_notfound config w 1 (nextLayout (nextLayout al))
            (by simpa using h3)]
        by_cases h4 : layoutMatches config w
            (nextLayout (nextLayout (nextLayout (nextLayout al)))) = true
        · exact ⟨_, change_loop_found config w 0
            (nextLayout (nextLayout (nextLayout al))) h4, h4le, h4,
            layoutMatches_find config w _ h4⟩
        · exfalso
          rcases hcycle al l hal hl with rfl | rfl | rfl | rfl
          · exact h1 hfl
          · exact h2 hfl
          · exact h3 hfl
          · exact h4 hfl

/-- Config set for the C7 witness: just the default Context. -/
def configs7w : List Associations := [⟨Client.Default, 0⟩]

theorem claim_C7_layout_convergence_witness :
    (0 : Nat) ≤ 3 ∧
    (∃ l, l ≤ 3 ∧ layoutMatches configs7w Client.Default l = true) ∧
    ∃ r, change_active_layout_loop configs7w Client.Default 4 0 = some r ∧ r ≤ 3 ∧
      layoutMatches configs7w Client.Default r = true ∧
      (find_config configs7w ⟨Client.Default, r⟩).isSome = true :=
  ⟨by norm_num, ⟨0, by norm_num, by decide⟩,
   claim_C7_layout_convergence configs7w Client.Default 0 (by norm_num)
     ⟨0, by norm_num, by decide⟩⟩

/-- Config and state for the C4 counterexample: a movement binding for
trigger BTN_SOUTH (304) with the empty chord, and no remap entry for
any trigger. -/
def cfg4 : Config :=
  ⟨⟨[], [(Event.key 304, [([], Relative.cursor Cursor.CURSOR_UP)])], []⟩,
   ⟨[Event.key 42], [], [Event.key 42]⟩⟩

def st4 : RState := ⟨[], true, (0, 0), (0, 0)⟩

/-- C4 counterexample: the movement lookup is nested inside the remap
entry check, so a trigger with a movement binding but no remap entry
never feeds the Movement Engine.  Pressing BTN_SOUTH with the empty
chord matches the movement table (no exact remap entry, no Hold entry),
yet the cursor accumulator stays (0,0) instead of becoming (0,-1): the
event falls through to the passthrough path. -/
theorem claim_C4_movement_gated_counterexample :
    alookup cfg4.bindings.remap (Event.key 304) = none ∧
    (alookup cfg4.bindings.movements (Event.key 304)).bind
      (fun m => alookup m st4.modifiers) = some (Relative.cursor Cursor.CURSOR_UP) ∧
    (convert_event cfg4 true false ⟨EType.KEY, 304, 1⟩ (Event.key 304) 1 false
      st4).1.cursor_movement = (0, 0) ∧
    ((0 : Int), (0 : Int)) ≠ ((0 : Int), (-1 : Int)) := by
  refine ⟨rfl, rfl, ?_, by decide⟩
  decide

/-- C4 amended: the movement directive is fed to the Movement Engine
accumulator only when the trigger ALSO has a remap entry whose chord map
matches neither the live chord nor a permitted Hold chord; in that case
it is fed exactly for value ≤ 1 and nothing is emitted, while the
synthetic repeat value 2 leaves the state unchanged. -/
theorem claim_C4_movement_resolution (config : Config) (chain_only rubyOn : Bool)
    (de : DefaultEvent) (T : Event) (value : Int) (send_zero : Bool) (st : RState)
    {map : List (Chord × List Nat)} {movement : Relative}
    (hru : alookup config.bindings.rubies T = none)
    (hm : alookup config.bindings.remap T = some map)
    (he : alookup map st.modifiers = none)
    (hh : holdEntry map st.modifiers chain_only = none)
    (hmv : (alookup config.bindings.movements T).bind
      (fun m => alookup m st.modifiers) = some movement) :
    convert_event config chain_only rubyOn de T value send_zero st =
      (if value ≤ 1 then (emit_movement movement value st, []) else (st, [])) := by
  have hr : ¬ rubyHit config rubyOn T st.modifiers := by
    simp [rubyHit, hru]
  exact convert_event_eq_movement config chain_only rubyOn de T value send_zero st
    hr hm he hh hmv

/-- Config for the C4 witness: BTN_SOUTH (304) has a remap entry bound
only under chord [LEFTSHIFT] and a movement entry under the empty
chord. -/
def cfg4w : Config :=
  ⟨⟨[(Event.key 304, [([Event.key 42], [30])])],
    [(Event.key 304, [([], Relative.cursor Cursor.CURSOR_UP)])], []⟩,
   ⟨[Event.key 42], [], [Event.key 42]⟩⟩

theorem claim_C4_movement_resolution_witness :
    convert_event cfg4w true false ⟨EType.KEY, 304, 1⟩ (Event.key 304) 1 false st4 =
      (if (1 : Int) ≤ 1 then (emit_movement (Relative.cursor Cursor.CURSOR_UP) 1 st4, [])
       else (st4, [])) :=
  claim_C4_movement_resolution cfg4w true false ⟨EType.KEY, 304, 1⟩ (Event.key 304) 1
    false st4 rfl rfl rfl rfl rfl

theorem get_multi_modifiers_fold (keyOf : String → Option Nat) :
    ∀ (ts : List String) (acc : List Event),
      ts.foldl (fun acc event =>
        match Axis.fromStr event with
        | some a => acc ++ [Event.axis a]
        | none =>
          match keyOf event with
          | some k => acc ++ [Event.key k]
          | none => acc) acc = acc ++ resolveTokens keyOf ts := by
  intro ts
  induction ts with
  | nil => intro acc; simp [resolveTokens]
  | cons t rest ih =>
    intro acc
    cases ha : Axis.fromStr t with
    | some a =>
      simp only [List.foldl_cons, ha, ih, resolveTokens, List.filterMap_cons]
      simp [resolveTokens]
    | none =>
      cases hk : keyOf t with
      | some k =>
        simp only [List.foldl_cons, ha, hk, ih, resolveTokens, List.filterMap_cons]
        simp [resolveTokens]
      | none =>
        simp only [List.foldl_cons, ha, hk, ih, resolveTokens, List.filterMap_cons]

theorem movementsLoop_isSome (keyOf : String → Option Nat) :
    ∀ (ms : List (String × String))
      (st : List (Event × List (Chord × Relative)) × MappedModifiers),
      (∀ p ∈ ms, (Relative.fromStr p.2).isSome = true) →
      (movementsLoop keyOf ms st).isSome = true := by
  intro ms
  induction ms with
  | nil => intro st _; rfl
  | cons p rest ih =>
    intro st hall
    rcases p with ⟨input, bad_output⟩
    have hp : (Relative.fromStr bad_output).isSome = true :=
      hall (input, bad_output) (by simp)
    rcases ho : Relative.fromStr bad_output with _ | output
    · rw [ho] at hp
      cases hp
    · rcases st with ⟨table, mm⟩
      rw [movementsLoop, ho]
      exact ih _ (fun q hq => hall q (by simp [hq]))

/-- C8 counterexample: a movements rule whose output token does not
resolve as a Relative aborts the whole load (the expect panic, modelled
as none), so a malformed binding rule does abort config loading. -/
theorem claim_C8_load_abort_counterexample :
    parse_raw_config (fun _ => none)
      ⟨[], [("KEY_A", "BOGUS")], [], []⟩ = none := by
  rfl

/-- C8 amended: per-rule degradation holds for input tokens only.  A
trigger token unresolvable in both symbol spaces drops that rule's
bindings silently; unresolvable modifier tokens are skipped while the
remaining prefix tokens are still resolved in order; and the load never
fails whenever every movements output resolves — only a movements rule
with an unresolvable output directive aborts the whole load. -/
theorem claim_C8_per_rule_degradation (keyOf : String → Option Nat) (raw : RawConfig)
    (hmv : ∀ p ∈ raw.movements, (Relative.fromStr p.2).isSome = true) :
    (parse_raw_config keyOf raw).isSome = true ∧
    (∀ (modifiers : Chord) (event_string : String) (output : List Nat),
      Axis.fromStr event_string = none → keyOf event_string = none →
      get_bindings keyOf modifiers event_string output = []) ∧
    (∀ (mods : String) (mm : MappedModifiers),
      (get_multi_modifiers keyOf mods mm).1 =
        resolveTokens keyOf (splitDash mods) ++
          (match splitDash mods with
           | [] => []
           | s :: _ => if s = "" then [Event.hold] else [])) := by
  refine ⟨?_, ?_, ?_⟩
  · simp only [parse_raw_config]
    split
    · next heq =>
      have hsome := movementsLoop_isSome keyOf raw.movements
        ([], (ruleLoop keyOf raw.rubies
          ([], (ruleLoop keyOf raw.remap
            ([], ⟨default_modifiers,
              [] ++ parse_modifiers keyOf raw.settings "CUSTOM_MODIFIERS" ++
                parse_modifiers keyOf raw.settings "LSTICK_ACTIVATION_MODIFIERS" ++
                parse_modifiers keyOf raw.settings "RSTICK_ACTIVATION_MODIFIERS",
              []⟩)).2)).2) hmv
      rw [heq] at hsome
      cases hsome
    · rfl
  · intro modifiers event_string output ha hk
    unfold get_bindings
    rw [ha, hk]
  · intro mods mm
    simp only [get_multi_modifiers]
    rw [get_multi_modifiers_fold keyOf (splitDash mods) []]
    simp only [List.nil_append]
    cases hs : splitDash mods with
    | nil => simp
    | cons s rest =>
      by_cases hse : s = ""
      · simp [hse]
      · simp [hse]

def raw8w : RawConfig := ⟨[("NOPE", [20])], [("KEY_A", "CURSOR_UP")], [], []⟩

def kOf8 : String → Option Nat := fun s => if s = "KEY_A" then some 30 else none

theorem claim_C8_per_rule_degradation_witness :
    (parse_raw_config kOf8 raw8w).isSome = true ∧
    (∀ (modifiers : Chord) (event_string : String) (output : List Nat),
      Axis.fromStr event_string = none → kOf8 event_string = none →
      get_bindings kOf8 modifiers event_string output = []) ∧
    (∀ (mods : String) (mm : MappedModifiers),
      (get_multi_modifiers kOf8 mods mm).1 =
        resolveTokens kOf8 (splitDash mods) ++
          (match splitDash mods with
           | [] => []
           | s :: _ => if s = "" then [Event.hold] else [])) :=
  claim_C8_per_rule_degradation kOf8 raw8w (by decide)

theorem alookup_mem {α β : Type} [DecidableEq α] :
    ∀ {m : List (α × β)} {x : α} {b : β}, alookup m x = some b → (x, b) ∈ m := by
  intro m
  induction m with
  | nil => intro x b h; cases h
  | cons p rest ih =>
    intro x b h
    rw [alookup] at h
    split at h
    · next hx =>
      rw [Option.some.injEq] at h
      subst h
      subst hx
      exact List.mem_cons_self p rest
    · exact List.mem_cons_of_mem p (ih h)

theorem get_bindings_values {T : Type} (keyOf : String → Option Nat)
    (mods : Chord) (es : String) (out : T) :
    ∀ p ∈ get_bindings keyOf mods es out, p.2.length = 1 := by
  intro p hp
  unfold get_bindings at hp
  rcases ha : Axis.fromStr es with _ | a
  all_goals rw [ha] at hp
  · rcases hk : keyOf es with _ | k
    all_goals rw [hk] at hp
    · cases hp
    · rcases List.mem_singleton.mp hp with rfl
      rfl
  · rcases List.mem_singleton.mp hp with rfl
    rfl

theorem get_bindings_and_modifiers_values {T : Type} (keyOf : String → Option Nat)
    (input : String) (out : T) (mm : MappedModifiers) :
    ∀ p ∈ (get_bindings_and_modifiers keyOf input out mm).1, p.2.length = 1 := by
  unfold get_bindings_and_modifiers
  rcases hs : rsplitOnceDash input with _ | ⟨ms, es⟩
  · exact get_bindings_values keyOf [] input out
  · exact get_bindings_values keyOf _ es out

theorem insertReplace_values {α T : Type} [DecidableEq α]
    {m : List (α × List T)} {kv : α × List T}
    (hm : ∀ p ∈ m, p.2.length = 1) (hkv : kv.2.length = 1) :
    ∀ p ∈ insertReplace m kv, p.2.length = 1 := by
  intro p hp
  unfold insertReplace at hp
  split at hp
  · rcases List.mem_map.mp hp with ⟨q, hq, hpq⟩
    by_cases hqk : q.1 = kv.1
    · rw [if_pos hqk] at hpq
      rw [← hpq]
      exact hkv
    · rw [if_neg hqk] at hpq
      rw [← hpq]
      exact hm q hq
  · rcases List.mem_append.mp hp with h | h
    · exact hm p h
    · rcases List.mem_singleton.mp h with rfl
      exact hkv

theorem extendA_values {α T : Type} [DecidableEq α] :
    ∀ {n m : List (α × List T)},
      (∀ p ∈ m, p.2.length = 1) → (∀ p ∈ n, p.2.length = 1) →
      ∀ p ∈ extendA m n, p.2.length = 1 := by
  intro n
  induction n with
  | nil => intro m hm _ p hp; exact hm p hp
  | cons kv rest ih =>
    intro m hm hn p hp
    rw [extendA, List.foldl_cons] at hp
    exact ih (insertReplace_values hm (hn kv (by simp)))
      (fun q hq => hn q (by simp [hq])) p hp

theorem ruleLoop_values {T : Type} (keyOf : String → Option Nat) :
    ∀ (rules : List (String × T))
      (st : List (Event × List (Chord × T)) × MappedModifiers),
      (∀ p ∈ st.1, p.2.length = 1) →
      ∀ p ∈ (ruleLoop keyOf rules st).1, p.2.length = 1 := by
  intro rules
  induction rules with
  | nil => intro st h; exact h
  | cons r rest ih =>
    intro st h
    rcases st with ⟨table, mm⟩
    rcases r with ⟨input, output⟩
    rw [ruleLoop]
    exact ih _ (extendA_values h
      (get_bindings_and_modifiers_values keyOf input output mm))

theorem movementsLoop_values (keyOf : String → Option Nat) :
    ∀ (ms : List (String × String))
      (st : List (Event × List (Chord × Relative)) × MappedModifiers) (r : _),
      (∀ p ∈ st.1, p.2.length = 1) →
      movementsLoop keyOf ms st = some r →
      ∀ p ∈ r.1, p.2.length = 1 := by
  intro ms
  induction ms with
  | nil =>
    intro st r h he
    rw [movementsLoop, Option.some.injEq] at he
    rw [← he]
    exact h
  | cons q rest ih =>
    intro st r h he
    rcases st with ⟨table, mm⟩
    rcases q with ⟨input, bad_output⟩
    rw [movementsLoop] at he
    split at he
    · cases he
    · exact ih _ r (extendA_values h
        (get_bindings_and_modifiers_values keyOf input _ mm)) he

/-- C3: HashMap::extend merges each rule's single-trigger map by
replacing the entire chord map stored for that trigger, so after
parse_raw_config every trigger's chord map in remap, rubies and
movements contains exactly one entry: a trigger never simultaneously
carries an exact-chord, a Hold-chord and a bare-key binding. -/
theorem claim_C3_extend_replaces_whole_map (keyOf : String → Option Nat)
    (raw : RawConfig) (b : Bindings) (settings : List (String × String))
    (mm : MappedModifiers)
    (hp : parse_raw_config keyOf raw = some (b, settings, mm)) :
    (∀ ev m, alookup b.remap ev = some m → m.length = 1) ∧
    (∀ ev m, alookup b.rubies ev = some m → m.length = 1) ∧
    (∀ ev m, alookup b.movements ev = some m → m.length = 1) := by
  simp only [parse_raw_config] at hp
  split at hp
  · cases hp
  · next r3 heq =>
    rw [Option.some.injEq, Prod.ext_iff] at hp
    simp only at hp
    have hb : b = Bindings.mk
        (ruleLoop keyOf raw.remap ([],
          ⟨default_modifiers,
            [] ++ parse_modifiers keyOf raw.settings "CUSTOM_MODIFIERS" ++
              parse_modifiers keyOf raw.settings "LSTICK_ACTIVATION_MODIFIERS" ++
              parse_modifiers keyOf raw.settings "RSTICK_ACTIVATION_MODIFIERS",
            []⟩)).1
        r3.1
        (ruleLoop keyOf raw.rubies ([], (ruleLoop keyOf raw.remap ([],
          ⟨default_modifiers,
            [] ++ parse_modifiers keyOf raw.settings "CUSTOM_MODIFIERS" ++
              parse_modifiers keyOf raw.settings "LSTICK_ACTIVATION_MODIFIERS" ++
              parse_modifiers keyOf raw.settings "RSTICK_ACTIVATION_MODIFIERS",
            []⟩)).2)).1 := hp.1.symm
    refine ⟨?_, ?_, ?_⟩
    · intro ev m hl
      have hmem := alookup_mem hl
      rw [hb] at hmem
      exact ruleLoop_values keyOf raw.remap _ (by intro p hp0; cases hp0) (ev, m) hmem
    · intro ev m hl
      have hmem := alookup_mem hl
      rw [hb] at hmem
      exact ruleLoop_values keyOf raw.rubies _ (by intro p hp0; cases hp0) (ev, m) hmem
    · intro ev m hl
      have hmem := alookup_mem hl
      rw [hb] at hmem
      exact movementsLoop_values keyOf raw.movements _ r3
        (by intro p hp0; cases hp0) heq (ev, m) hmem

/-- Raw config for the C3 witness: two remap rules with the same trigger
KEY_A (30) and different chords; after loading, only the second rule's
single-entry chord map survives. -/
def kOf3 : String → Option Nat :=
  fun s => if s = "KEY_A" then some 30 else if s = "KEY_B" then some 48 else none

def raw3 : RawConfig := ⟨[("KEY_A", [20]), ("KEY_B-KEY_A", [21])], [], [], []⟩

theorem claim_C3_extend_replaces_whole_map_witness :
    parse_raw_config kOf3 raw3 =
      some (⟨[(Event.key 30, [([Event.key 48], [21])])], [], []⟩, [],
        ⟨default_modifiers, [Event.key 48],
         [Event.key 29, Event.key 42, Event.key 48, Event.key 54, Event.key 56,
          Event.key 97, Event.key 100, Event.key 125]⟩) ∧
    ((∀ ev m, alookup (Bindings.mk [(Event.key 30, [([Event.key 48], [21])])] [] []).remap
        ev = some m → m.length = 1) ∧
     (∀ ev m, alookup (Bindings.mk [(Event.key 30, [([Event.key 48], [21])])] [] []).rubies
        ev = some m → m.length = 1) ∧
     (∀ ev m, alookup (Bindings.mk [(Event.key 30, [([Event.key 48], [21])])] [] []).movements
        ev = some m → m.length = 1)) :=
  ⟨by decide,
   claim_C3_extend_replaces_whole_map kOf3 raw3
     (Bindings.mk [(Event.key 30, [([Event.key 48], [21])])] [] []) []
     ⟨default_modifiers, [Event.key 48],
      [Event.key 29, Event.key 42, Event.key 48, Event.key 54, Event.key 56,
       Event.key 97, Event.key 100, Event.key 125]⟩
     (by decide)⟩

end Makita
